import Mathlib

/-!
Verification development for the endoflife.date fetcher
(`src/endoflife_fetcher.py`).

The embedding models:
* JSON values as they flow through the program (`JVal`, where the `bad`
  constructor stands for a Python object that is not JSON serializable,
  such as a `set`);
* the HTTP response as delivered to `fetch_product` (`HttpResp`: status
  code, the `Retry-After` header, and the result of `resp.json()`);
* `fetch_product` itself as a pure classification function returning a
  `FetchResult` (one constructor per distinct `raise` site and the
  success return);
* the `main` fetch/persist orchestration as `runMain`, driven by the
  per-invocation fetch outcomes and a per-path write-failure oracle;
* `save_json` over an explicit filesystem state (`FS`), with the
  serializer mirroring `json.dump(data, f, ensure_ascii=False, indent=2)`
  including its streaming behaviour (text emitted before a
  serialization failure stays in the file);
* a JSON parser (`parseJson`) used to state the serialize/parse
  round-trip property.
-/

mutual
inductive JVal where
  | vnull : JVal
  | vbool (b : Bool) : JVal
  | vnum (n : Int) : JVal
  | vstr (s : String) : JVal
  | varr (xs : JArr) : JVal
  | vobj (kvs : JObj) : JVal
  | bad (r : String) : JVal
  deriving DecidableEq
inductive JArr where
  | anil : JArr
  | acons (x : JVal) (xs : JArr) : JArr
  deriving DecidableEq
inductive JObj where
  | onil : JObj
  | ocons (k : String) (v : JVal) (kvs : JObj) : JObj
  deriving DecidableEq
end

/-- A single-quote character, used to build the exact Python messages. -/
def squote : String := String.mk [Char.ofNat 39]

def BASE_URL : String := "https://endoflife.date/api/v1"

def productUrl (product : String) : String := BASE_URL ++ "/products/" ++ product

/-- Model of Python decimal printing of a natural number (`str(n)`),
with explicit fuel so that it is structurally recursive. -/
def digitC (d : Nat) : Char := Char.ofNat (48 + d)

def natCharsAux : Nat → Nat → List Char
  | 0, _ => []
  | fuel + 1, n =>
    if n < 10 then [digitC n]
    else natCharsAux fuel (n / 10) ++ [digitC (n % 10)]

def natChars (n : Nat) : List Char := natCharsAux (n + 1) n

def natStr (n : Nat) : String := String.mk (natChars n)

/-- Model of Python `str(n)` for (possibly negative) integers. -/
def intChars (n : Int) : List Char :=
  if n < 0 then '-' :: natChars (-n).toNat else natChars n.toNat

def intStr (n : Int) : String := String.mk (intChars n)

/-- Model of `str(resp.status_code).startswith("5")`. -/
def startsWith5 (s : Nat) : Bool :=
  match natChars s with
  | [] => false
  | c :: _ => c = '5'

/-- Model of `requests.Response.ok`: true unless `raise_for_status`
would raise, which happens exactly for `400 <= status < 600`. -/
def respOk (s : Nat) : Bool := decide (s < 400) || decide (600 ≤ s)

/-- Python whitespace stripped by `int(str)`. -/
def isPySpace (c : Char) : Bool :=
  c = ' ' || c = '\t' || c = '\n' || c = '\r' || c = Char.ofNat 11 || c = Char.ofNat 12

def stripCs (cs : List Char) : List Char :=
  ((cs.dropWhile isPySpace).reverse.dropWhile isPySpace).reverse

/-- Digit-sequence part of Python `int(str)` parsing: digits with single
underscores allowed between digits. `acc` holds the digits read so far. -/
def pyDigitsVal (acc : Nat) : List Char → Option Nat
  | [] => some acc
  | '_' :: c :: rest =>
    if c.isDigit then pyDigitsVal (acc * 10 + (c.toNat - 48)) rest else none
  | '_' :: [] => none
  | c :: rest =>
    if c.isDigit then pyDigitsVal (acc * 10 + (c.toNat - 48)) rest else none

/-- Model of Python `int(s)` on a string: strip whitespace, optional
sign, then a digit sequence; `none` models a raised `ValueError`. -/
def pyIntOfChars (cs : List Char) : Option Int :=
  match stripCs cs with
  | [] => none
  | '+' :: c :: rest =>
    if c.isDigit then (pyDigitsVal (c.toNat - 48) rest).map Int.ofNat else none
  | '-' :: c :: rest =>
    if c.isDigit then (pyDigitsVal (c.toNat - 48) rest).map (fun n => -(n : Int)) else none
  | c :: rest =>
    if c.isDigit then (pyDigitsVal (c.toNat - 48) rest).map Int.ofNat else none

def pyInt (s : String) : Option Int := pyIntOfChars s.data

/-- The HTTP response as seen by `fetch_product` after the `requests.get`
call returned: status code, the optional `Retry-After` header value, and
the outcome of `resp.json()` (`Except.error` carries the `ValueError`
detail of a body that is not valid JSON). -/
structure HttpResp where
  status : Nat
  retryAfter : Option String
  body : Except String JVal

/-- Classified outcome of one `fetch_product` call.  Each error
constructor corresponds to one `raise` site in the source:
`notFound` to `ProductNotFoundError`, `rateLimited` to `RateLimitError`
(with its `retry_after` attribute: integer seconds, the raw header
string, or absent), and the remaining four to the four `EOLDAPIError`
raise sites. -/
inductive FetchResult where
  | success (payload : JVal)
  | notFound (message : String)
  | rateLimited (message : String) (retry_after : Option (Int ⊕ String))
  | serverError (message : String)
  | httpError (message : String)
  | invalidJson (message : String)
  | networkError (message : String)
  deriving DecidableEq

/-- Shallow embedding of `fetch_product`.  The `resp` argument is
`Except.error e` when `requests.get` raised a `RequestException` with
text `e`, and `Except.ok r` when a response was delivered. -/
def fetch_product (product : String) (resp : Except String HttpResp) : FetchResult :=
  match resp with
  | .error e =>
    .networkError ("Network or API error while requesting " ++ productUrl product ++ ": " ++ e)
  | .ok r =>
    if r.status = 404 then
      .notFound ("Product " ++ squote ++ product ++ squote ++
        " not found on endoflife.date. Check " ++ BASE_URL ++ "/products for valid product names.")
    else if r.status = 429 then
      match r.retryAfter with
      | some ra =>
        if ra ≠ "" then
          match pyInt ra with
          | some n =>
            .rateLimited ("Rate limit exceeded. Please retry after " ++ intStr n ++ " seconds.")
              (some (Sum.inl n))
          | none =>
            .rateLimited ("Rate limit exceeded. Retry-After: " ++ ra) (some (Sum.inr ra))
        else
          .rateLimited "Rate limit exceeded. Please wait before making more requests." none
      | none =>
        .rateLimited "Rate limit exceeded. Please wait before making more requests." none
    else if startsWith5 r.status then
      .serverError ("Server error " ++ natStr r.status ++ " from endoflife.date.")
    else if !respOk r.status then
      .httpError ("HTTP " ++ natStr r.status ++ " error from endoflife.date.")
    else
      match r.body with
      | .error e => .invalidJson ("Invalid JSON received from API: " ++ e)
      | .ok d => .success d

/-- `hay` contains `needle` as a substring. -/
def containsStr (hay needle : String) : Prop := ∃ a b, hay = a ++ needle ++ b

/-- Python dict insertion on an association list: an existing key keeps
its position and gets the new value, a new key is appended. -/
def dictInsert {α : Type} (k : String) (v : α) : List (String × α) → List (String × α)
  | [] => [(k, v)]
  | (k2, v2) :: rest =>
    if k2 = k then (k, v) :: rest else (k2, v2) :: dictInsert k v rest

def keysOf {α : Type} (l : List (String × α)) : List String := l.map Prod.fst

/-- One entry of the `errors` dict built by `main`: the `type` tag,
message, and (for rate limiting) the `retry_after` value. -/
inductive ErrEntry where
  | notFound (message : String)
  | rateLimit (message : String) (retry_after : Option (Int ⊕ String))
  | apiError (message : String)
  deriving DecidableEq

def ErrEntry.isNotFound : ErrEntry → Bool
  | .notFound _ => true
  | _ => false

def ErrEntry.isRateLimit : ErrEntry → Bool
  | .rateLimit _ _ => true
  | _ => false

/-- The error-dict entry produced by the `except` clauses of the fetch
loop for a failed outcome (`none` for a success). -/
def errEntryOf : FetchResult → Option ErrEntry
  | .success _ => none
  | .notFound m => some (.notFound m)
  | .rateLimited m ra => some (.rateLimit m ra)
  | .serverError m => some (.apiError m)
  | .httpError m => some (.apiError m)
  | .invalidJson m => some (.apiError m)
  | .networkError m => some (.apiError m)

/-- The fetch loop of `main`: walk the requested products in order,
inserting each success into `results` and each classified failure into
`errors` (Python dict semantics, so a repeated identifier overwrites
within one map but is never removed from the other). -/
def fetchLoopAux (rs : List (String × JVal)) (es : List (String × ErrEntry)) :
    List (String × FetchResult) → List (String × JVal) × List (String × ErrEntry)
  | [] => (rs, es)
  | (p, r) :: rest =>
    match r with
    | .success v => fetchLoopAux (dictInsert p v rs) es rest
    | .notFound m => fetchLoopAux rs (dictInsert p (.notFound m) es) rest
    | .rateLimited m ra => fetchLoopAux rs (dictInsert p (.rateLimit m ra) es) rest
    | .serverError m => fetchLoopAux rs (dictInsert p (.apiError m) es) rest
    | .httpError m => fetchLoopAux rs (dictInsert p (.apiError m) es) rest
    | .invalidJson m => fetchLoopAux rs (dictInsert p (.apiError m) es) rest
    | .networkError m => fetchLoopAux rs (dictInsert p (.apiError m) es) rest

def fetchLoop (fetches : List (String × FetchResult)) :
    List (String × JVal) × List (String × ErrEntry) :=
  fetchLoopAux [] [] fetches

def headIsSlash (s : String) : Bool :=
  match s.data with
  | [] => false
  | c :: _ => c = '/'

def lastIsSlash (s : String) : Bool :=
  match s.data.getLast? with
  | some c => c = '/'
  | none => false

/-- `os.path.join` on POSIX for the shapes used by the program. -/
def pathJoin (a b : String) : String :=
  if headIsSlash b then b
  else if a = "" then b
  else if lastIsSlash a then a ++ b
  else a ++ "/" ++ b

def defaultPath (product : String) : String :=
  pathJoin "Output" (product ++ "-eol.json")

def defaultAllPath : String := pathJoin "Output" "all-products-eol.json"

/-- Python truthiness of the optional `--output` value (`if output:`),
false for both `None` and the empty string. -/
def outputTruthy : Option String → Bool
  | none => false
  | some s => decide (s ≠ "")

/-- Convert the accumulated `results` dict to the JSON object written in
`--one-file` mode. -/
def toJObj : List (String × JVal) → JObj
  | [] => .onil
  | (k, v) :: rest => .ocons k v (toJObj rest)

/-- The per-product save loop of `main`: write each result to its path,
aborting at the first failed write (`FileSaveError`).  Returns the
writes actually performed (path and data, in order) and whether the
loop aborted. -/
def writeLoop (wf : String → Bool) (pathOf : String → String) :
    List (String × JVal) → List (String × JVal) × Bool
  | [] => ([], false)
  | (p, v) :: rest =>
    let fp := pathOf p
    if wf fp then ([], true)
    else
      let r := writeLoop wf pathOf rest
      ((fp, v) :: r.1, r.2)

/-- The observable outcome of one `main` run: the accumulated result and
error dicts, the files written (path and data, in write order), whether
the multiple-products-with-explicit-output warning was printed, and the
process exit code (0 for a normal return). -/
structure RunResult where
  results : List (String × JVal)
  errors : List (String × ErrEntry)
  writes : List (String × JVal)
  warned : Bool
  exitCode : Nat

/-- Shallow embedding of `main`: `fetches` pairs each requested product
(in command-line order, duplicates included) with the outcome of its
`fetch_product` call; `output` is `--output`; `one_file` is
`--one-file`; `wf path = true` means writing to `path` raises
`FileSaveError`. -/
def runMain (fetches : List (String × FetchResult)) (output : Option String)
    (one_file : Bool) (wf : String → Bool) : RunResult :=
  let rs := (fetchLoop fetches).1
  let es := (fetchLoop fetches).2
  let products := fetches.map Prod.fst
  if rs.isEmpty then
    { results := rs, errors := es, writes := [], warned := false,
      exitCode :=
        if es.any (fun pe => pe.2.isNotFound) then 10
        else if es.any (fun pe => pe.2.isRateLimit) then 13
        else 11 }
  else if one_file then
    let out := if outputTruthy output then output.getD "" else defaultAllPath
    if wf out then
      { results := rs, errors := es, writes := [], warned := false, exitCode := 12 }
    else
      { results := rs, errors := es, writes := [(out, JVal.vobj (toJObj rs))],
        warned := false, exitCode := if es.isEmpty then 0 else 5 }
  else
    let warned := outputTruthy output && decide (1 < products.length)
    let out1 := if warned then none else output
    let pathOf := fun p =>
      if outputTruthy out1 && decide (products.length = 1) then out1.getD ""
      else defaultPath p
    let wr := writeLoop wf pathOf rs
    { results := rs, errors := es, writes := wr.1, warned := warned,
      exitCode := if wr.2 then 12 else if es.isEmpty then 0 else 5 }

/-! ### The serializer: `json.dump(data, f, ensure_ascii=False, indent=2)` -/

/-- Lower-case hexadecimal digit, as in the `\uXXXX` escapes emitted by
the Python encoder. -/
def hexC (n : Nat) : Char := if n < 10 then Char.ofNat (48 + n) else Char.ofNat (87 + n)

/-- Escaping of one character by the Python encoder with
`ensure_ascii=False`: only the quote, the backslash and control
characters are escaped; everything else (non-ASCII included) is emitted
verbatim. -/
def escChar (c : Char) : List Char :=
  if c = '"' then ['\\', '"']
  else if c = '\\' then ['\\', '\\']
  else if c = '\n' then ['\\', 'n']
  else if c = '\t' then ['\\', 't']
  else if c = '\r' then ['\\', 'r']
  else if c = Char.ofNat 8 then ['\\', 'b']
  else if c = Char.ofNat 12 then ['\\', 'f']
  else if c.toNat < 32 then ['\\', 'u', '0', '0', hexC (c.toNat / 16), hexC (c.toNat % 16)]
  else [c]

def escList : List Char → List Char
  | [] => []
  | c :: cs => escChar c ++ escList cs

/-- A serialized JSON string: quote, escaped content, quote. -/
def encStr (s : String) : List Char := '"' :: (escList s.data ++ ['"'])

/-- Indentation emitted at nesting depth `d` (`indent=2`). -/
def indChars (d : Nat) : List Char := List.replicate (2 * d) ' '

mutual
/-- The text the Python encoder streams into the file for a value at
depth `d`, together with a success flag: on a non-serializable value the
flag is false and the text is exactly what was emitted before the
`TypeError` was raised. -/
def serV (d : Nat) : JVal → List Char × Bool
  | .vnull => ("null".data, true)
  | .vbool true => ("true".data, true)
  | .vbool false => ("false".data, true)
  | .vnum n => (intChars n, true)
  | .vstr s => (encStr s, true)
  | .varr .anil => ("[]".data, true)
  | .varr (.acons x xs) =>
    let p := serV (d + 1) x
    let head := '[' :: '\n' :: (indChars (d + 1) ++ p.1)
    if p.2 then
      let q := serItems (d + 1) xs
      if q.2 then (head ++ q.1 ++ '\n' :: (indChars d ++ [']']), true)
      else (head ++ q.1, false)
    else (head, false)
  | .vobj .onil => (['\x7b', '\x7d'], true)
  | .vobj (.ocons k v kvs) =>
    let p := serV (d + 1) v
    let head := '\x7b' :: '\n' :: (indChars (d + 1) ++ encStr k ++ ':' :: ' ' :: p.1)
    if p.2 then
      let q := serFields (d + 1) kvs
      if q.2 then (head ++ q.1 ++ '\n' :: (indChars d ++ ['\x7d']), true)
      else (head ++ q.1, false)
    else (head, false)
  | .bad _ => ([], false)
/-- Continuation of a non-empty array: `",\n" ++ indent` before each
further item. -/
def serItems (d : Nat) : JArr → List Char × Bool
  | .anil => ([], true)
  | .acons x xs =>
    let p := serV d x
    let chunk := ',' :: '\n' :: (indChars d ++ p.1)
    if p.2 then
      let q := serItems d xs
      (chunk ++ q.1, q.2)
    else (chunk, false)
/-- Continuation of a non-empty object. -/
def serFields (d : Nat) : JObj → List Char × Bool
  | .onil => ([], true)
  | .ocons k v kvs =>
    let p := serV d v
    let chunk := ',' :: '\n' :: (indChars d ++ encStr k ++ ':' :: ' ' :: p.1)
    if p.2 then
      let q := serFields d kvs
      (chunk ++ q.1, q.2)
    else (chunk, false)
end

/-! ### A JSON parser, to state the round-trip property -/

def isWsC (c : Char) : Bool := c = ' ' || c = '\n' || c = '\t' || c = '\r'

def skipWs (cs : List Char) : List Char := cs.dropWhile isWsC

def hexVal (c : Char) : Option Nat :=
  if c.isDigit then some (c.toNat - 48)
  else if 97 ≤ c.toNat && c.toNat ≤ 102 then some (c.toNat - 87)
  else if 65 ≤ c.toNat && c.toNat ≤ 70 then some (c.toNat - 55)
  else none

def unesc (e : Char) : Option Char :=
  if e = '"' then some '"'
  else if e = '\\' then some '\\'
  else if e = '/' then some '/'
  else if e = 'b' then some (Char.ofNat 8)
  else if e = 'f' then some (Char.ofNat 12)
  else if e = 'n' then some '\n'
  else if e = 'r' then some '\r'
  else if e = 't' then some '\t'
  else none

/-- Decode a `\uXXXX` escape: four hex digits, then the rest. -/
def readHex4 : List Char → Option (Char × List Char)
  | a :: b :: c2 :: d2 :: rest3 =>
    match hexVal a, hexVal b, hexVal c2, hexVal d2 with
    | some ha, some hb, some hc, some hd =>
      some (Char.ofNat (((ha * 16 + hb) * 16 + hc) * 16 + hd), rest3)
    | _, _, _, _ => none
  | _ => none

/-- Decode one escape sequence after a backslash: the decoded character
and the remaining input. -/
def readEsc : List Char → Option (Char × List Char)
  | [] => none
  | e :: rest2 =>
    if e = 'u' then readHex4 rest2
    else
      match unesc e with
      | some u => some (u, rest2)
      | none => none

/-- Parse the body of a JSON string (after the opening quote), returning
the decoded characters and the input after the closing quote. -/
def pStr : Nat → List Char → Option (List Char × List Char)
  | 0, _ => none
  | _ + 1, [] => none
  | fuel + 1, c :: rest =>
    if c = '"' then some ([], rest)
    else if c = '\\' then
      match readEsc rest with
      | some ur => (pStr fuel ur.2).map (fun pr => (ur.1 :: pr.1, pr.2))
      | none => none
    else (pStr fuel rest).map (fun pr => (c :: pr.1, pr.2))

def pDigits (acc : Nat) : List Char → Nat × List Char
  | [] => (acc, [])
  | c :: rest =>
    if c.isDigit then pDigits (acc * 10 + (c.toNat - 48)) rest else (acc, c :: rest)

def pNum : List Char → Option (Int × List Char)
  | [] => none
  | c :: rest =>
    if c = '-' then
      match rest with
      | [] => none
      | c2 :: rest2 =>
        if c2.isDigit then
          let pr := pDigits (c2.toNat - 48) rest2
          some (-(pr.1 : Int), pr.2)
        else none
    else if c.isDigit then
      let pr := pDigits (c.toNat - 48) rest
      some ((pr.1 : Int), pr.2)
    else none

/-- Match the expected literal characters at the front of the input. -/
def expectCs : List Char → List Char → Option (List Char)
  | [], cs => some cs
  | p :: ps, c :: cs => if c = p then expectCs ps cs else none
  | _ :: _, [] => none

mutual
/-- Fueled JSON value parser: skip whitespace, then dispatch on the
first character. -/
def pVal : Nat → List Char → Option (JVal × List Char)
  | 0, _ => none
  | f + 1, cs =>
    match skipWs cs with
    | [] => none
    | c :: r =>
      if c = 'n' then (expectCs "ull".data r).map (fun r2 => (.vnull, r2))
      else if c = 't' then (expectCs "rue".data r).map (fun r2 => (.vbool true, r2))
      else if c = 'f' then (expectCs "alse".data r).map (fun r2 => (.vbool false, r2))
      else if c = '"' then (pStr f r).map (fun pr => (.vstr (String.mk pr.1), pr.2))
      else if c = '[' then
        match skipWs r with
        | [] => none
        | c2 :: r2 =>
          if c2 = ']' then some (.varr .anil, r2)
          else
            match pVal f (c2 :: r2) with
            | some (v, r3) =>
              (pItems f r3).map (fun pr => (.varr (.acons v pr.1), pr.2))
            | none => none
      else if c = '\x7b' then
        match skipWs r with
        | [] => none
        | c2 :: r2 =>
          if c2 = '\x7d' then some (.vobj .onil, r2)
          else if c2 = '"' then
            match pStr f r2 with
            | some (k, r3) =>
              match skipWs r3 with
              | [] => none
              | c3 :: r4 =>
                if c3 = ':' then
                  match pVal f r4 with
                  | some (v, r5) =>
                    (pFields f r5).map
                      (fun pr => (.vobj (.ocons (String.mk k) v pr.1), pr.2))
                  | none => none
                else none
            | none => none
          else none
      else (pNum (c :: r)).map (fun pr => (.vnum pr.1, pr.2))
/-- After one array item: a comma and another item, or the closing
bracket. -/
def pItems : Nat → List Char → Option (JArr × List Char)
  | 0, _ => none
  | f + 1, cs =>
    match skipWs cs with
    | [] => none
    | c :: r =>
      if c = ']' then some (.anil, r)
      else if c = ',' then
        match pVal f r with
        | some (v, r2) => (pItems f r2).map (fun pr => (.acons v pr.1, pr.2))
        | none => none
      else none
/-- After one object field: a comma and another field, or the closing
brace. -/
def pFields : Nat → List Char → Option (JObj × List Char)
  | 0, _ => none
  | f + 1, cs =>
    match skipWs cs with
    | [] => none
    | c :: r =>
      if c = '\x7d' then some (.onil, r)
      else if c = ',' then
        match skipWs r with
        | [] => none
        | c1 :: r1 =>
          if c1 = '"' then
            match pStr f r1 with
            | some (k, r2) =>
              match skipWs r2 with
              | [] => none
              | c2 :: r3 =>
                if c2 = ':' then
                  match pVal f r3 with
                  | some (v, r4) =>
                    (pFields f r4).map (fun pr => (.ocons (String.mk k) v pr.1, pr.2))
                  | none => none
                else none
            | none => none
          else none
      else none
end

/-- Parse a whole document: one value, then only whitespace may remain. -/
def parseJson (s : String) : Option JVal :=
  match pVal (s.data.length + 1) s.data with
  | some (v, rest) => if skipWs rest = [] then some v else none
  | none => none

/-- The contexts in which the serializer places a value: the next
character after a serialized value is a comma or a newline, or the
value ends the document. -/
def headOkP : List Char → Prop
  | [] => True
  | c :: _ => c = ',' ∨ c = '\n'

/-- The input does not continue with a digit. -/
def headND : List Char → Prop
  | [] => True
  | c :: _ => c.isDigit = false

/-! ### The filesystem model and `save_json` -/

/-- Filesystem state: the set of existing directories and the files with
their text content. -/
structure FS where
  dirs : List String
  files : List (String × String)

inductive SaveOutcome where
  | ok : SaveOutcome
  | fileSaveError (msg : String) : SaveOutcome
  | typeError (msg : String) : SaveOutcome
  deriving DecidableEq

/-- `os.path.dirname` on POSIX: the part before the last slash, with
trailing slashes stripped unless the result is all slashes. -/
def dirnameCs (cs : List Char) : List Char :=
  let head := (cs.reverse.dropWhile (fun c => c ≠ '/')).reverse
  if head.isEmpty then []
  else if head.all (fun c => c = '/') then head
  else (head.reverse.dropWhile (fun c => c = '/')).reverse

def dirname (p : String) : String := String.mk (dirnameCs p.data)

/-- The directory together with its chain of ancestors obtained by
iterating `dirname`, as created by `os.makedirs`. -/
def dirChain : Nat → String → List String
  | 0, _ => []
  | fuel + 1, d => if d = "" then [] else d :: dirChain fuel (dirname d)

def makedirsModel (fs : FS) (d : String) : FS :=
  { fs with dirs := dirChain (d.length + 1) d ++ fs.dirs }

/-- Shallow embedding of `save_json`.  `osFail` is `some e` when the
open/write raises an `OSError` with text `e` (wrapped as
`FileSaveError`).  Otherwise the serializer streams into the file; on a
non-serializable value the raw `TypeError` escapes and the text emitted
so far remains in the (truncated and partially rewritten) file. -/
def save_json (fs : FS) (data : JVal) (path : String) (osFail : Option String) :
    FS × SaveOutcome :=
  let d := dirname path
  let fs1 := if d ≠ "" ∧ d ∉ fs.dirs then makedirsModel fs d else fs
  match osFail with
  | some e =>
    (fs1, .fileSaveError ("Failed to write file " ++ squote ++ path ++ squote ++ ": " ++ e))
  | none =>
    let p := serV 0 data
    let fs2 := { fs1 with files := dictInsert path (String.mk p.1) fs1.files }
    if p.2 then (fs2, .ok) else (fs2, .typeError "Object is not JSON serializable")

/-! ## Helper lemmas -/

set_option maxRecDepth 4000 in
theorem sw5_of_5xx : ∀ s : Nat, s < 600 → 500 ≤ s → startsWith5 s = true := by decide

set_option maxRecDepth 4000 in
theorem sw5_not_4xx : ∀ s : Nat, s < 500 → 400 ≤ s → startsWith5 s = false := by decide

set_option maxRecDepth 4000 in
theorem sw5_not_2xx3xx : ∀ s : Nat, s < 400 → 200 ≤ s → startsWith5 s = false := by decide

theorem respOk_false_of {s : Nat} (h1 : 400 ≤ s) (h2 : s < 600) : respOk s = false := by
  simp only [respOk, Bool.or_eq_false_iff, decide_eq_false_iff_not]
  omega

theorem respOk_true_of {s : Nat} (h : s < 400) : respOk s = true := by
  simp only [respOk, Bool.or_eq_true, decide_eq_true_eq]
  omega

/-! ## C2: classification of non-404/429 error statuses -/

/-- C2 (counterexample): a 304 response is not a 2xx status, is not 404,
not 429 and not 5xx, yet `fetch_product` does not return an `ApiError`
with the status in its message: `resp.ok` is true for 3xx, so the code
proceeds to parse the body and returns it as a success. -/
theorem c2_counterexample :
    fetch_product "python" (.ok ⟨304, none, .ok (JVal.varr .anil)⟩) =
      .success (JVal.varr .anil) ∧
    ∀ m, fetch_product "python" (.ok ⟨304, none, .ok (JVal.varr .anil)⟩) ≠ .httpError m ∧
      fetch_product "python" (.ok ⟨304, none, .ok (JVal.varr .anil)⟩) ≠ .serverError m := by
  have h : fetch_product "python" (.ok ⟨304, none, .ok (JVal.varr .anil)⟩) =
      .success (JVal.varr .anil) := by decide
  refine ⟨h, fun m => ⟨?_, ?_⟩⟩ <;> rw [h] <;> exact fun hh => FetchResult.noConfusion hh

/-- C2 (amended): for a delivered response that is not 404 and not 429:
a status in [500,599] yields the server-error `ApiError` with the
numeric status in its message; a status in [400,499] other than 404 and
429 yields the generic HTTP `ApiError` with the numeric status in its
message; but a 3xx status is treated as OK by `resp.ok` and proceeds to
body parsing instead of an error. -/
theorem c2_amended (p : String) (ra : Option String) (b : Except String JVal) (s : Nat) :
    (500 ≤ s → s ≤ 599 →
      fetch_product p (.ok ⟨s, ra, b⟩) =
        .serverError ("Server error " ++ natStr s ++ " from endoflife.date.") ∧
      containsStr ("Server error " ++ natStr s ++ " from endoflife.date.") (natStr s)) ∧
    (400 ≤ s → s ≤ 499 → s ≠ 404 → s ≠ 429 →
      fetch_product p (.ok ⟨s, ra, b⟩) =
        .httpError ("HTTP " ++ natStr s ++ " error from endoflife.date.") ∧
      containsStr ("HTTP " ++ natStr s ++ " error from endoflife.date.") (natStr s)) ∧
    (∀ v, 300 ≤ s → s ≤ 399 → fetch_product p (.ok ⟨s, ra, .ok v⟩) = .success v) := by
  refine ⟨fun h1 h2 => ⟨?_, ?_⟩, fun h1 h2 h3 h4 => ⟨?_, ?_⟩, fun v h1 h2 => ?_⟩
  · simp only [fetch_product]
    rw [if_neg (by omega : ¬ s = 404), if_neg (by omega : ¬ s = 429),
      sw5_of_5xx s (by omega) (by omega)]
    simp
  · exact ⟨"Server error ", " from endoflife.date.", rfl⟩
  · simp only [fetch_product]
    rw [if_neg (by omega : ¬ s = 404), if_neg (by omega : ¬ s = 429),
      sw5_not_4xx s (by omega) (by omega), respOk_false_of (by omega) (by omega)]
    simp
  · exact ⟨"HTTP ", " error from endoflife.date.", rfl⟩
  · simp only [fetch_product]
    rw [if_neg (by omega : ¬ s = 404), if_neg (by omega : ¬ s = 429),
      sw5_not_2xx3xx s (by omega) (by omega), respOk_true_of (by omega)]
    simp

/-- C2 (witness): the amended theorem applied at statuses 503, 403
and 304. -/
theorem c2_amended_witness :
    (fetch_product "python" (.ok ⟨503, none, .ok JVal.vnull⟩) =
      .serverError ("Server error " ++ natStr 503 ++ " from endoflife.date.") ∧
      containsStr ("Server error " ++ natStr 503 ++ " from endoflife.date.") (natStr 503)) ∧
    (fetch_product "python" (.ok ⟨403, none, .ok JVal.vnull⟩) =
      .httpError ("HTTP " ++ natStr 403 ++ " error from endoflife.date.") ∧
      containsStr ("HTTP " ++ natStr 403 ++ " error from endoflife.date.") (natStr 403)) ∧
    fetch_product "python" (.ok ⟨304, none, .ok JVal.vnull⟩) = .success JVal.vnull :=
  ⟨(c2_amended "python" none (.ok JVal.vnull) 503).1 (by omega) (by omega),
   (c2_amended "python" none (.ok JVal.vnull) 403).2.1 (by omega) (by omega)
     (by omega) (by omega),
   (c2_amended "python" none (.ok JVal.vnull) 304).2.2 JVal.vnull (by omega) (by omega)⟩

/-! ## C3: the 429 Retry-After classification -/

/-- C3 (counterexample): a 429 response whose `Retry-After` header is
present but empty.  The empty string does not parse as an integer, so
the claimed three-way split requires the raw header string as the hint;
but `if retry_after:` is false on the empty string, so the code carries
no retry hint at all. -/
theorem c3_counterexample :
    fetch_product "python" (.ok ⟨429, some "", .ok JVal.vnull⟩) =
      .rateLimited "Rate limit exceeded. Please wait before making more requests." none ∧
    pyInt "" = none ∧
    ∀ m, fetch_product "python" (.ok ⟨429, some "", .ok JVal.vnull⟩) ≠
      .rateLimited m (some (Sum.inr "")) := by
  have h : fetch_product "python" (.ok ⟨429, some "", .ok JVal.vnull⟩) =
      .rateLimited "Rate limit exceeded. Please wait before making more requests." none := by
    decide
  refine ⟨h, by decide, fun m => ?_⟩
  rw [h]
  intro hh
  cases hh

/-- C3 (amended): on a 429 response the retry hint is four-way: header
absent → no hint; header present, non-empty, and parsing as a Python
integer → that integer; header present, non-empty, not parsing as an
integer → the raw header string; header present but empty → no hint
(the code tests Python truthiness, not presence). -/
theorem c3_amended (p : String) (b : Except String JVal) :
    fetch_product p (.ok ⟨429, none, b⟩) =
      .rateLimited "Rate limit exceeded. Please wait before making more requests." none ∧
    (∀ ra n, ra ≠ "" → pyInt ra = some n →
      fetch_product p (.ok ⟨429, some ra, b⟩) =
        .rateLimited ("Rate limit exceeded. Please retry after " ++ intStr n ++ " seconds.")
          (some (Sum.inl n))) ∧
    (∀ ra, ra ≠ "" → pyInt ra = none →
      fetch_product p (.ok ⟨429, some ra, b⟩) =
        .rateLimited ("Rate limit exceeded. Retry-After: " ++ ra) (some (Sum.inr ra))) ∧
    fetch_product p (.ok ⟨429, some "", b⟩) =
      .rateLimited "Rate limit exceeded. Please wait before making more requests." none := by
  refine ⟨?_, fun ra n hra hpy => ?_, fun ra hra hpy => ?_, ?_⟩
  · simp [fetch_product]
  · simp only [fetch_product]
    rw [if_neg (by omega : ¬ (429 : Nat) = 404)]
    simp only [if_true, if_pos hra, hpy]
  · simp only [fetch_product]
    rw [if_neg (by omega : ¬ (429 : Nat) = 404)]
    simp only [if_true, if_pos hra, hpy]
  · simp [fetch_product]

/-- C3 (witness): the amended theorem applied to the three headers of
the spec example and to the empty header. -/
theorem c3_amended_witness :
    fetch_product "python" (.ok ⟨429, none, .ok JVal.vnull⟩) =
      .rateLimited "Rate limit exceeded. Please wait before making more requests." none ∧
    fetch_product "python" (.ok ⟨429, some "60", .ok JVal.vnull⟩) =
      .rateLimited ("Rate limit exceeded. Please retry after " ++ intStr 60 ++ " seconds.")
        (some (Sum.inl 60)) ∧
    fetch_product "python" (.ok ⟨429, some "Wed, 21 Oct 2025 07:28:00 GMT", .ok JVal.vnull⟩) =
      .rateLimited ("Rate limit exceeded. Retry-After: " ++ "Wed, 21 Oct 2025 07:28:00 GMT")
        (some (Sum.inr "Wed, 21 Oct 2025 07:28:00 GMT")) ∧
    fetch_product "python" (.ok ⟨429, some "", .ok JVal.vnull⟩) =
      .rateLimited "Rate limit exceeded. Please wait before making more requests." none :=
  ⟨(c3_amended "python" (.ok JVal.vnull)).1,
   (c3_amended "python" (.ok JVal.vnull)).2.1 "60" 60 (by decide) (by decide),
   (c3_amended "python" (.ok JVal.vnull)).2.2.1 "Wed, 21 Oct 2025 07:28:00 GMT"
     (by decide) (by decide),
   (c3_amended "python" (.ok JVal.vnull)).2.2.2⟩

/-! ## C8: 2xx body handling -/

/-- C8: on a 2xx response, a body that fails to parse as JSON yields the
invalid-response `ApiError` with the parse failure detail in the
message, and a body that parses yields `Success` carrying the parsed
value unchanged. -/
theorem c8_2xx_body (p : String) (ra : Option String) (s : Nat)
    (h1 : 200 ≤ s) (h2 : s ≤ 299) :
    (∀ e, fetch_product p (.ok ⟨s, ra, .error e⟩) =
        .invalidJson ("Invalid JSON received from API: " ++ e) ∧
      containsStr ("Invalid JSON received from API: " ++ e) e) ∧
    ∀ v, fetch_product p (.ok ⟨s, ra, .ok v⟩) = .success v := by
  constructor
  · intro e
    constructor
    · simp only [fetch_product]
      rw [if_neg (by omega : ¬ s = 404), if_neg (by omega : ¬ s = 429),
        sw5_not_2xx3xx s (by omega) (by omega), respOk_true_of (by omega)]
      simp
    · exact ⟨"Invalid JSON received from API: ", "", by simp⟩
  · intro v
    simp only [fetch_product]
    rw [if_neg (by omega : ¬ s = 404), if_neg (by omega : ¬ s = 429),
      sw5_not_2xx3xx s (by omega) (by omega), respOk_true_of (by omega)]
    simp

/-- C8 (witness): applied at status 200, with a parse failure and with a
parsed array. -/
theorem c8_2xx_body_witness :
    (fetch_product "python" (.ok ⟨200, none, .error "Expecting value"⟩) =
        .invalidJson ("Invalid JSON received from API: " ++ "Expecting value") ∧
      containsStr ("Invalid JSON received from API: " ++ "Expecting value") "Expecting value") ∧
    fetch_product "python" (.ok ⟨200, none, .ok (JVal.varr .anil)⟩) =
      .success (JVal.varr .anil) :=
  ⟨(c8_2xx_body "python" none 200 (by omega) (by omega)).1 "Expecting value",
   (c8_2xx_body "python" none 200 (by omega) (by omega)).2 (JVal.varr .anil)⟩

/-! ## Lemmas about the fetch-loop accumulation -/

theorem mem_keysOf_dictInsert {α : Type} {a k : String} {v : α} {l : List (String × α)} :
    a ∈ keysOf (dictInsert k v l) ↔ a = k ∨ a ∈ keysOf l := by
  induction l with
  | nil => simp [dictInsert, keysOf]
  | cons kv rest ih =>
    obtain ⟨k2, v2⟩ := kv
    by_cases h : k2 = k
    · subst h
      simp [dictInsert, keysOf]
    · simp only [dictInsert, if_neg h, keysOf, List.map_cons, List.mem_cons] at ih ⊢
      tauto

theorem self_mem_dictInsert {α : Type} (k : String) (v : α) (l : List (String × α)) :
    (k, v) ∈ dictInsert k v l := by
  induction l with
  | nil => simp [dictInsert]
  | cons kv rest ih =>
    obtain ⟨k2, v2⟩ := kv
    by_cases h : k2 = k <;> simp [dictInsert, h, ih]

theorem mem_dictInsert_orig {α : Type} {a : String} {b : α} {k : String} {v : α}
    {l : List (String × α)} (h : (a, b) ∈ dictInsert k v l) :
    (a = k ∧ b = v) ∨ (a, b) ∈ l := by
  induction l with
  | nil =>
    have h2 : (a, b) = (k, v) := List.mem_singleton.1 h
    exact Or.inl (by simpa using h2)
  | cons kv rest ih =>
    obtain ⟨k2, v2⟩ := kv
    by_cases hk : k2 = k
    · have h3 : (a, b) ∈ (k, v) :: rest := by simpa [dictInsert, hk] using h
      rcases List.mem_cons.1 h3 with h4 | h4
      · exact Or.inl (by simpa using h4)
      · exact Or.inr (List.mem_cons_of_mem _ h4)
    · have h3 : (a, b) ∈ (k2, v2) :: dictInsert k v rest := by simpa [dictInsert, hk] using h
      rcases List.mem_cons.1 h3 with h4 | h4
      · exact Or.inr (by simp [h4])
      · rcases ih h4 with h5 | h5
        · exact Or.inl h5
        · exact Or.inr (List.mem_cons_of_mem _ h5)

theorem fetchLoopAux_success (rs : List (String × JVal)) (es : List (String × ErrEntry))
    (p : String) (v : JVal) (rest : List (String × FetchResult)) :
    fetchLoopAux rs es ((p, .success v) :: rest) = fetchLoopAux (dictInsert p v rs) es rest := rfl

theorem fetchLoopAux_err (rs : List (String × JVal)) (es : List (String × ErrEntry))
    (p : String) (r : FetchResult) (e : ErrEntry) (rest : List (String × FetchResult))
    (h : errEntryOf r = some e) :
    fetchLoopAux rs es ((p, r) :: rest) = fetchLoopAux rs (dictInsert p e es) rest := by
  cases r <;> simp only [errEntryOf, Option.some.injEq] at h <;> first
    | exact absurd h (by simp)
    | (subst h; rfl)

theorem errEntryOf_eq_none {r : FetchResult} (h : errEntryOf r = none) :
    ∃ v, r = .success v := by
  cases r <;> simp_all [errEntryOf]

theorem keysOf_sub_res (f : List (String × FetchResult)) :
    ∀ rs es q, q ∈ keysOf rs → q ∈ keysOf (fetchLoopAux rs es f).1 := by
  induction f with
  | nil => intro rs es q h; simpa [fetchLoopAux] using h
  | cons pr rest ih =>
    intro rs es q h
    obtain ⟨p, r⟩ := pr
    cases hr : errEntryOf r with
    | none =>
      obtain ⟨v, rfl⟩ := errEntryOf_eq_none hr
      rw [fetchLoopAux_success]
      exact ih _ _ q (mem_keysOf_dictInsert.2 (Or.inr h))
    | some e =>
      rw [fetchLoopAux_err _ _ _ _ _ _ hr]
      exact ih _ _ q h

theorem keysOf_sub_err (f : List (String × FetchResult)) :
    ∀ rs es q, q ∈ keysOf es → q ∈ keysOf (fetchLoopAux rs es f).2 := by
  induction f with
  | nil => intro rs es q h; simpa [fetchLoopAux] using h
  | cons pr rest ih =>
    intro rs es q h
    obtain ⟨p, r⟩ := pr
    cases hr : errEntryOf r with
    | none =>
      obtain ⟨v, rfl⟩ := errEntryOf_eq_none hr
      rw [fetchLoopAux_success]
      exact ih _ _ q h
    | some e =>
      rw [fetchLoopAux_err _ _ _ _ _ _ hr]
      exact ih _ _ q (mem_keysOf_dictInsert.2 (Or.inr h))

theorem res_key_iff (f : List (String × FetchResult)) :
    ∀ rs es q, q ∈ keysOf (fetchLoopAux rs es f).1 ↔
      q ∈ keysOf rs ∨ ∃ v, (q, FetchResult.success v) ∈ f := by
  induction f with
  | nil => intro rs es q; simp [fetchLoopAux]
  | cons pr rest ih =>
    intro rs es q
    obtain ⟨p, r⟩ := pr
    cases hr : errEntryOf r with
    | none =>
      obtain ⟨v, rfl⟩ := errEntryOf_eq_none hr
      rw [fetchLoopAux_success, ih]
      constructor
      · rintro (h | ⟨w, hw⟩)
        · rcases mem_keysOf_dictInsert.1 h with h1 | h1
          · exact Or.inr ⟨v, by simp [h1]⟩
          · exact Or.inl h1
        · exact Or.inr ⟨w, List.mem_cons_of_mem _ hw⟩
      · rintro (h | ⟨w, hw⟩)
        · exact Or.inl (mem_keysOf_dictInsert.2 (Or.inr h))
        · rcases List.mem_cons.1 hw with h2 | h2
          · obtain ⟨hq, -⟩ := Prod.mk.injEq .. ▸ h2
            exact Or.inl (mem_keysOf_dictInsert.2 (Or.inl hq))
          · exact Or.inr ⟨w, h2⟩
    | some e =>
      rw [fetchLoopAux_err _ _ _ _ _ _ hr, ih]
      constructor
      · rintro (h | ⟨w, hw⟩)
        · exact Or.inl h
        · exact Or.inr ⟨w, List.mem_cons_of_mem _ hw⟩
      · rintro (h | ⟨w, hw⟩)
        · exact Or.inl h
        · rcases List.mem_cons.1 hw with h2 | h2
          · exfalso
            have : r = FetchResult.success w := (Prod.mk.injEq .. ▸ h2).2.symm
            rw [this] at hr
            simp [errEntryOf] at hr
          · exact Or.inr ⟨w, h2⟩

theorem err_key_of (f : List (String × FetchResult)) :
    ∀ rs es q r0 e0, (q, r0) ∈ f → errEntryOf r0 = some e0 →
      q ∈ keysOf (fetchLoopAux rs es f).2 := by
  induction f with
  | nil => simp
  | cons pr rest ih =>
    intro rs es q r0 e0 hmem he
    obtain ⟨p, r⟩ := pr
    rcases List.mem_cons.1 hmem with h2 | h2
    · rw [Prod.mk.injEq] at h2
      obtain ⟨hq, hr0⟩ := h2
      rw [hr0] at he
      rw [fetchLoopAux_err _ _ _ _ _ _ he, hq]
      exact keysOf_sub_err _ _ _ _ (mem_keysOf_dictInsert.2 (Or.inl rfl))
    · cases hr : errEntryOf r with
      | none =>
        obtain ⟨v, rfl⟩ := errEntryOf_eq_none hr
        rw [fetchLoopAux_success]
        exact ih _ _ _ _ _ h2 he
      | some e =>
        rw [fetchLoopAux_err _ _ _ _ _ _ hr]
        exact ih _ _ _ _ _ h2 he

theorem res_val_orig (f : List (String × FetchResult)) :
    ∀ rs es q v, (q, v) ∈ (fetchLoopAux rs es f).1 →
      (q, v) ∈ rs ∨ (q, FetchResult.success v) ∈ f := by
  induction f with
  | nil => intro rs es q v h; exact Or.inl (by simpa [fetchLoopAux] using h)
  | cons pr rest ih =>
    intro rs es q v h
    obtain ⟨p, r⟩ := pr
    cases hr : errEntryOf r with
    | none =>
      obtain ⟨w, rfl⟩ := errEntryOf_eq_none hr
      rw [fetchLoopAux_success] at h
      rcases ih _ _ _ _ h with h1 | h1
      · rcases mem_dictInsert_orig h1 with ⟨hq, hv⟩ | h3
        · subst hq; subst hv; exact Or.inr (by simp)
        · exact Or.inl h3
      · exact Or.inr (List.mem_cons_of_mem _ h1)
    | some e =>
      rw [fetchLoopAux_err _ _ _ _ _ _ hr] at h
      rcases ih _ _ _ _ h with h1 | h1
      · exact Or.inl h1
      · exact Or.inr (List.mem_cons_of_mem _ h1)

theorem fetchLoop_disjoint_aux (f : List (String × FetchResult)) :
    ∀ rs es,
      (∀ q, ¬(q ∈ keysOf rs ∧ q ∈ keysOf es)) →
      (∀ q, q ∈ f.map Prod.fst → q ∉ keysOf rs ∧ q ∉ keysOf es) →
      (f.map Prod.fst).Nodup →
      ∀ q, ¬(q ∈ keysOf (fetchLoopAux rs es f).1 ∧ q ∈ keysOf (fetchLoopAux rs es f).2) := by
  induction f with
  | nil => intro rs es hdisj _ _ q; simpa [fetchLoopAux] using hdisj q
  | cons pr rest ih =>
    intro rs es hdisj hfresh hnd q
    obtain ⟨p, r⟩ := pr
    rw [List.map_cons, List.nodup_cons] at hnd
    have hndt := hnd
    cases hr : errEntryOf r with
    | none =>
      obtain ⟨v, rfl⟩ := errEntryOf_eq_none hr
      rw [fetchLoopAux_success]
      refine ih _ _ ?_ ?_ hndt.2 q
      · intro a ⟨ha1, ha2⟩
        rcases mem_keysOf_dictInsert.1 ha1 with h1 | h1
        · subst h1
          exact (hfresh a (by simp)).2 ha2
        · exact hdisj a ⟨h1, ha2⟩
      · intro a ha
        have hf := hfresh a (by simp [ha])
        refine ⟨?_, hf.2⟩
        intro hmem
        rcases mem_keysOf_dictInsert.1 hmem with h1 | h1
        · exact hndt.1 (h1 ▸ ha)
        · exact hf.1 h1
    | some e =>
      rw [fetchLoopAux_err _ _ _ _ _ _ hr]
      refine ih _ _ ?_ ?_ hndt.2 q
      · intro a ⟨ha1, ha2⟩
        rcases mem_keysOf_dictInsert.1 ha2 with h1 | h1
        · subst h1
          exact (hfresh a (by simp)).1 ha1
        · exact hdisj a ⟨ha1, h1⟩
      · intro a ha
        have hf := hfresh a (by simp [ha])
        refine ⟨hf.1, ?_⟩
        intro hmem
        rcases mem_keysOf_dictInsert.1 hmem with h1 | h1
        · exact hndt.1 (h1 ▸ ha)
        · exact hf.2 h1

/-! ## Lemmas about `runMain` and the write loop -/

theorem runMain_errors (f : List (String × FetchResult)) (out : Option String)
    (onef : Bool) (wf : String → Bool) :
    (runMain f out onef wf).errors = (fetchLoop f).2 := by
  simp only [runMain]
  split_ifs <;> rfl

theorem runMain_results (f : List (String × FetchResult)) (out : Option String)
    (onef : Bool) (wf : String → Bool) :
    (runMain f out onef wf).results = (fetchLoop f).1 := by
  simp only [runMain]
  split_ifs <;> rfl

theorem writeLoop_all_ok (wf : String → Bool) (pathOf : String → String) :
    ∀ items : List (String × JVal), (∀ pv ∈ items, wf (pathOf pv.1) = false) →
      writeLoop wf pathOf items = (items.map (fun pv => (pathOf pv.1, pv.2)), false) := by
  intro items
  induction items with
  | nil => intro _; rfl
  | cons pv rest ih =>
    intro h
    obtain ⟨p, v⟩ := pv
    have hp : wf (pathOf p) = false := h (p, v) (by simp)
    simp only [writeLoop, hp, Bool.false_eq_true, if_false, List.map_cons]
    rw [ih (fun q hq => h q (List.mem_cons_of_mem _ hq))]

theorem writeLoop_split (wf : String → Bool) (pathOf : String → String)
    (p : String) (v : JVal) (post : List (String × JVal)) :
    ∀ pre : List (String × JVal),
      (∀ pv ∈ pre, wf (pathOf pv.1) = false) → wf (pathOf p) = true →
      writeLoop wf pathOf (pre ++ (p, v) :: post) =
        (pre.map (fun pv => (pathOf pv.1, pv.2)), true) := by
  intro pre
  induction pre with
  | nil =>
    intro _ hf
    simp [writeLoop, hf]
  | cons qv rest ih =>
    intro hpre hf
    obtain ⟨q, w⟩ := qv
    have hq : wf (pathOf q) = false := hpre (q, w) (by simp)
    simp only [List.cons_append, writeLoop, hq, Bool.false_eq_true, if_false, List.map_cons,
      List.append_eq]
    rw [ih (fun x hx => hpre x (List.mem_cons_of_mem _ hx)) hf]

theorem res_isEmpty_false {f : List (String × FetchResult)} {p : String} {v : JVal}
    (h : (p, FetchResult.success v) ∈ f) : (fetchLoop f).1.isEmpty = false := by
  have hk : p ∈ keysOf (fetchLoop f).1 := (res_key_iff f [] [] p).2 (Or.inr ⟨v, h⟩)
  cases hrs : (fetchLoop f).1 with
  | nil => rw [hrs] at hk; simp [keysOf] at hk
  | cons a l => simp

theorem err_isEmpty_false {f : List (String × FetchResult)} {p : String} {r : FetchResult}
    {e : ErrEntry} (hmem : (p, r) ∈ f) (he : errEntryOf r = some e) :
    (fetchLoop f).2.isEmpty = false := by
  have hk : p ∈ keysOf (fetchLoop f).2 := err_key_of f [] [] p r e hmem he
  cases hes : (fetchLoop f).2 with
  | nil => rw [hes] at hk; simp [keysOf] at hk
  | cons a l => simp

theorem writeLoop_snd_false (wf : String → Bool) (pathOf : String → String)
    (items : List (String × JVal)) (hwf : ∀ q, wf q = false) :
    (writeLoop wf pathOf items).2 = false := by
  rw [writeLoop_all_ok wf pathOf items (fun pv _ => hwf _)]

theorem ite_eq_or {c : Prop} [Decidable c] (a b : Nat) :
    (if c then a else b) = a ∨ (if c then a else b) = b := by
  by_cases h : c <;> simp [h]

theorem runMain_exitCode_cases (f : List (String × FetchResult)) (out : Option String)
    (onef : Bool) (wf : String → Bool)
    (hrs : (fetchLoop f).1.isEmpty = false) :
    (runMain f out onef wf).exitCode = 12 ∨
      (runMain f out onef wf).exitCode = (if (fetchLoop f).2.isEmpty then 0 else 5) := by
  simp only [runMain, hrs, Bool.false_eq_true, if_false]
  cases onef
  · simp only [Bool.false_eq_true, if_false]
    exact ite_eq_or 12 _
  · simp only [if_true]
    rw [apply_ite RunResult.exitCode]
    exact ite_eq_or 12 _

theorem runMain_exitCode_ok (f : List (String × FetchResult)) (out : Option String)
    (onef : Bool) (wf : String → Bool)
    (hrs : (fetchLoop f).1.isEmpty = false) (hwf : ∀ q, wf q = false) :
    (runMain f out onef wf).exitCode = (if (fetchLoop f).2.isEmpty then 0 else 5) := by
  simp only [runMain, hrs, Bool.false_eq_true, if_false]
  cases onef
  · simp only [Bool.false_eq_true, if_false]
    rw [writeLoop_snd_false _ _ _ hwf]
    simp
  · simp only [if_true, hwf, Bool.false_eq_true, if_false]

/-! ## C1: disjointness of the success and failure maps -/

/-- C1 (counterexample): when the same identifier occurs twice in the
input, once succeeding and once failing, it ends up in both accumulated
maps: neither dict insertion removes the identifier from the other map. -/
theorem c1_counterexample :
    "python" ∈ keysOf (fetchLoop [("python", .success JVal.vnull),
      ("python", .notFound "m")]).1 ∧
    "python" ∈ keysOf (fetchLoop [("python", .success JVal.vnull),
      ("python", .notFound "m")]).2 := by decide

/-- C1 (amended): when the input list contains no duplicate identifier,
no identifier ends up in both the success map and the failure map; with
duplicates, an identifier that both succeeds and fails appears in both. -/
theorem c1_amended (fetches : List (String × FetchResult))
    (hnd : (fetches.map Prod.fst).Nodup) (p : String) :
    ¬(p ∈ keysOf (fetchLoop fetches).1 ∧ p ∈ keysOf (fetchLoop fetches).2) :=
  fetchLoop_disjoint_aux fetches [] [] (fun q h => by simp [keysOf] at h)
    (fun q _ => ⟨by simp [keysOf], by simp [keysOf]⟩) hnd p

/-- C1 (witness): the amended theorem at a duplicate-free two-product
run with one success and one failure. -/
theorem c1_amended_witness :
    ¬("python" ∈ keysOf (fetchLoop [("python", .success JVal.vnull),
        ("nodejs", .notFound "m")]).1 ∧
      "python" ∈ keysOf (fetchLoop [("python", .success JVal.vnull),
        ("nodejs", .notFound "m")]).2) :=
  c1_amended [("python", .success JVal.vnull), ("nodejs", .notFound "m")] (by decide) "python"

/-! ## C4: failures are isolated and accumulated -/

/-- C4: a fetch failure on one product does not abort the run: every
failed identifier appears in the final error report; and when at least
one product succeeds and at least one fails, the exit code is never one
of the total-failure codes (10, 11, 13), and is exactly the
partial-success code 5 whenever persistence succeeds. -/
theorem c4_failure_isolation (fetches : List (String × FetchResult)) (output : Option String)
    (one_file : Bool) (wf : String → Bool)
    (ps : String) (vs : JVal) (hs : (ps, FetchResult.success vs) ∈ fetches)
    (pf : String) (rf : FetchResult) (ef : ErrEntry)
    (hfm : (pf, rf) ∈ fetches) (hef : errEntryOf rf = some ef) :
    (∀ q r e, (q, r) ∈ fetches → errEntryOf r = some e →
      q ∈ keysOf (runMain fetches output one_file wf).errors) ∧
    (runMain fetches output one_file wf).exitCode ≠ 10 ∧
    (runMain fetches output one_file wf).exitCode ≠ 11 ∧
    (runMain fetches output one_file wf).exitCode ≠ 13 ∧
    ((∀ q, wf q = false) → (runMain fetches output one_file wf).exitCode = 5) := by
  have hrs := res_isEmpty_false hs
  have hes := err_isEmpty_false hfm hef
  have hcases := runMain_exitCode_cases fetches output one_file wf hrs
  rw [hes] at hcases
  simp only [Bool.false_eq_true, if_false] at hcases
  refine ⟨?_, ?_, ?_, ?_, ?_⟩
  · intro q r e hq he
    rw [runMain_errors]
    exact err_key_of fetches [] [] q r e hq he
  · rcases hcases with h | h <;> omega
  · rcases hcases with h | h <;> omega
  · rcases hcases with h | h <;> omega
  · intro hwf
    rw [runMain_exitCode_ok fetches output one_file wf hrs hwf, hes]
    simp

/-- C4 (witness): the spec example `["python", "invalid", "nodejs"]`
where "invalid" 404s and the others succeed, with all writes
succeeding: the exit code is the partial-success code 5. -/
theorem c4_witness :
    (runMain [("python", .success JVal.vnull), ("invalid", .notFound "m"),
      ("nodejs", .success JVal.vnull)] none false (fun _ => false)).exitCode = 5 :=
  (c4_failure_isolation
    [("python", .success JVal.vnull), ("invalid", .notFound "m"),
      ("nodejs", .success JVal.vnull)] none false (fun _ => false)
    "python" JVal.vnull (by decide)
    "invalid" (.notFound "m") (.notFound "m") (by decide) (by decide)).2.2.2.2
    (fun _ => rfl)

/-! ## C5: multiple products, no combine flag, explicit path -/

/-- C5 (counterexample): the explicit path CAN receive a file when it
coincides with one of the default per-product paths.  With products
python and nodejs and the explicit path `Output/nodejs-eol.json`, the
warning fires and default naming is used, but the default path of
nodejs IS the explicit path, so a file is created there — against the
claim that no file is ever created at the explicit path. -/
theorem c5_counterexample :
    (runMain [("python", .success JVal.vnull), ("nodejs", .success JVal.vnull)]
      (some "Output/nodejs-eol.json") false (fun _ => false)).warned = true ∧
    ("Output/nodejs-eol.json", JVal.vnull) ∈
      (runMain [("python", .success JVal.vnull), ("nodejs", .success JVal.vnull)]
        (some "Output/nodejs-eol.json") false (fun _ => false)).writes := by decide

/-- C5 (amended): with multiple products, the combine flag unset and a
truthy explicit path, the warning is surfaced, the explicit path is
discarded, and every successful product is written to its own default
per-product path; consequently every file created is at a default
per-product path (the explicit path receives a file only when it
coincides with one of those). -/
theorem c5_amended (fetches : List (String × FetchResult)) (output : Option String)
    (wf : String → Bool) (hout : outputTruthy output = true)
    (hmany : 1 < (fetches.map Prod.fst).length)
    (hwf : ∀ q, wf q = false)
    (ps : String) (vs : JVal) (hs : (ps, FetchResult.success vs) ∈ fetches) :
    (runMain fetches output false wf).warned = true ∧
    (runMain fetches output false wf).writes =
      (fetchLoop fetches).1.map (fun pv => (defaultPath pv.1, pv.2)) ∧
    (∀ q d, (q, d) ∈ (runMain fetches output false wf).writes →
      ∃ p0, p0 ∈ keysOf (fetchLoop fetches).1 ∧ q = defaultPath p0) := by
  have hrs := res_isEmpty_false hs
  have hd : decide (1 < (fetches.map Prod.fst).length) = true := decide_eq_true hmany
  have hwr : (runMain fetches output false wf).writes =
      (fetchLoop fetches).1.map (fun pv => (defaultPath pv.1, pv.2)) := by
    simp only [runMain, hrs, Bool.false_eq_true, if_false, hout, hd, Bool.and_self, if_true]
    simp only [outputTruthy, Bool.false_and, Bool.false_eq_true, if_false]
    rw [writeLoop_all_ok wf _ _ (fun pv _ => hwf _)]
  refine ⟨?_, hwr, ?_⟩
  · simp only [runMain, hrs, Bool.false_eq_true, if_false, hout, hd, Bool.and_self]
  · intro q d hqd
    rw [hwr] at hqd
    rcases List.mem_map.1 hqd with ⟨pv, hpv, heq⟩
    refine ⟨pv.1, List.mem_map.2 ⟨pv, hpv, rfl⟩, ?_⟩
    exact (Prod.mk.injEq .. ▸ heq).1.symm

/-- C5 (witness): the amended theorem at the two-product run of the
claim with an explicit path distinct from both default paths. -/
theorem c5_amended_witness :
    (runMain [("python", .success JVal.vnull), ("nodejs", .success JVal.vnull)]
      (some "my/out.json") false (fun _ => false)).warned = true ∧
    (runMain [("python", .success JVal.vnull), ("nodejs", .success JVal.vnull)]
      (some "my/out.json") false (fun _ => false)).writes =
      (fetchLoop [("python", .success JVal.vnull),
        ("nodejs", .success JVal.vnull)]).1.map (fun pv => (defaultPath pv.1, pv.2)) ∧
    (∀ q d, (q, d) ∈ (runMain [("python", .success JVal.vnull),
        ("nodejs", .success JVal.vnull)] (some "my/out.json") false (fun _ => false)).writes →
      ∃ p0, p0 ∈ keysOf (fetchLoop [("python", .success JVal.vnull),
        ("nodejs", .success JVal.vnull)]).1 ∧ q = defaultPath p0) :=
  c5_amended [("python", .success JVal.vnull), ("nodejs", .success JVal.vnull)]
    (some "my/out.json") (fun _ => false) (by decide) (by decide) (fun _ => rfl)
    "python" JVal.vnull (by decide)

/-! ## C6: multiple products, combine flag, no explicit path -/

/-- C6: with the combine flag set, no truthy explicit path and at least
one success, exactly one file is written, at the default combined path,
containing the mapping whose keys are exactly the successfully fetched
identifiers and whose values are their fetched payloads. -/
theorem c6_combined (fetches : List (String × FetchResult)) (output : Option String)
    (wf : String → Bool) (hout : outputTruthy output = false)
    (hwf : wf defaultAllPath = false)
    (_hmany : 1 < (fetches.map Prod.fst).length)
    (ps : String) (vs : JVal) (hs : (ps, FetchResult.success vs) ∈ fetches) :
    (runMain fetches output true wf).writes =
      [(defaultAllPath, JVal.vobj (toJObj (fetchLoop fetches).1))] ∧
    (∀ q, q ∈ keysOf (fetchLoop fetches).1 ↔ ∃ v, (q, FetchResult.success v) ∈ fetches) ∧
    (∀ q v, (q, v) ∈ (fetchLoop fetches).1 → (q, FetchResult.success v) ∈ fetches) := by
  have hrs := res_isEmpty_false hs
  refine ⟨?_, ?_, ?_⟩
  · simp only [runMain, hrs, Bool.false_eq_true, if_false, if_true, hout, hwf]
  · intro q
    constructor
    · intro h
      rcases (res_key_iff fetches [] [] q).1 h with h1 | h1
      · simp [keysOf] at h1
      · exact h1
    · intro hv
      exact (res_key_iff fetches [] [] q).2 (Or.inr hv)
  · intro q v h
    rcases res_val_orig fetches [] [] q v h with h1 | h1
    · simp at h1
    · exact h1

/-- C6 (witness): the theorem at the two-product spec example. -/
theorem c6_combined_witness :
    (runMain [("python", .success (JVal.vnum 1)), ("nodejs", .success (JVal.vnum 2))]
      none true (fun _ => false)).writes =
      [(defaultAllPath, JVal.vobj (toJObj (fetchLoop [("python", .success (JVal.vnum 1)),
        ("nodejs", .success (JVal.vnum 2))]).1))] ∧
    (∀ q, q ∈ keysOf (fetchLoop [("python", .success (JVal.vnum 1)),
        ("nodejs", .success (JVal.vnum 2))]).1 ↔
      ∃ v, (q, FetchResult.success v) ∈ [("python", .success (JVal.vnum 1)),
        ("nodejs", .success (JVal.vnum 2))]) ∧
    (∀ q v, (q, v) ∈ (fetchLoop [("python", .success (JVal.vnum 1)),
        ("nodejs", .success (JVal.vnum 2))]).1 →
      (q, FetchResult.success v) ∈ [("python", .success (JVal.vnum 1)),
        ("nodejs", .success (JVal.vnum 2))]) :=
  c6_combined [("python", .success (JVal.vnum 1)), ("nodejs", .success (JVal.vnum 2))]
    none (fun _ => false) rfl rfl (by decide) "python" (JVal.vnum 1) (by decide)

/-! ## C9: a persistence failure aborts the remaining writes -/

/-- C9: in the per-product save loop, the first failing write aborts the
run: exactly the results before the failing one are written, and the
exit code is the persistence-failure code 12 — in contrast to
fetch-phase errors, which are accumulated. -/
theorem c9_persistence_abort (fetches : List (String × FetchResult)) (wf : String → Bool)
    (pre post : List (String × JVal)) (p : String) (v : JVal)
    (hsplit : (fetchLoop fetches).1 = pre ++ (p, v) :: post)
    (hpre : ∀ pv ∈ pre, wf (defaultPath pv.1) = false)
    (hfail : wf (defaultPath p) = true) :
    (runMain fetches none false wf).exitCode = 12 ∧
    (runMain fetches none false wf).writes =
      pre.map (fun pv => (defaultPath pv.1, pv.2)) := by
  have hrs : (fetchLoop fetches).1.isEmpty = false := by
    rw [hsplit]
    cases pre <;> simp
  simp only [runMain, hrs, Bool.false_eq_true, if_false, outputTruthy, Bool.false_and,
    if_false]
  rw [hsplit, writeLoop_split wf _ p v post pre hpre hfail]
  simp

/-- C9 (witness): two successes where the second default path fails to
write: only the first file is written and the exit code is 12. -/
theorem c9_persistence_abort_witness :
    (runMain [("a", .success JVal.vnull), ("b", .success JVal.vnull)] none false
      (fun q => decide (q = "Output/b-eol.json"))).exitCode = 12 ∧
    (runMain [("a", .success JVal.vnull), ("b", .success JVal.vnull)] none false
      (fun q => decide (q = "Output/b-eol.json"))).writes =
      [("a", JVal.vnull)].map (fun pv => (defaultPath pv.1, pv.2)) :=
  c9_persistence_abort [("a", .success JVal.vnull), ("b", .success JVal.vnull)]
    (fun q => decide (q = "Output/b-eol.json")) [("a", JVal.vnull)] [] "b" JVal.vnull
    (by decide) (by decide) (by decide)

/-! ## Round-trip machinery: whitespace and numbers -/

theorem skipWs_cons_of_not {c : Char} {cs : List Char} (h : isWsC c = false) :
    skipWs (c :: cs) = c :: cs := by
  simp [skipWs, List.dropWhile_cons, h]

theorem skipWs_cons_of_ws {c : Char} {cs : List Char} (h : isWsC c = true) :
    skipWs (c :: cs) = skipWs cs := by
  simp [skipWs, List.dropWhile_cons, h]

theorem skipWs_replicate (n : Nat) (cs : List Char) :
    skipWs (List.replicate n ' ' ++ cs) = skipWs cs := by
  induction n with
  | zero => rfl
  | succ m ih => simpa [List.replicate_succ, skipWs_cons_of_ws (by decide : isWsC ' ' = true)]
      using ih

theorem skipWs_indent (d : Nat) (cs : List Char) :
    skipWs (indChars d ++ cs) = skipWs cs := by
  simp [indChars, skipWs_replicate]

theorem skipWs_nl (cs : List Char) : skipWs ('\n' :: cs) = skipWs cs :=
  skipWs_cons_of_ws (by decide)

theorem skipWs_skipWs (cs : List Char) : skipWs (skipWs cs) = skipWs cs := by
  induction cs with
  | nil => rfl
  | cons c t ih =>
    by_cases h : isWsC c = true
    · rw [skipWs_cons_of_ws h]
      exact ih
    · rw [skipWs_cons_of_not (by simpa using h), skipWs_cons_of_not (by simpa using h)]

theorem pVal_succ_skipWs (f : Nat) (cs : List Char) :
    pVal (f + 1) cs = pVal (f + 1) (skipWs cs) := by
  simp only [pVal, skipWs_skipWs]

theorem digitC_isDigit {d : Nat} (h : d < 10) : (digitC d).isDigit = true := by
  interval_cases d <;> decide

theorem digitC_toNat {d : Nat} (h : d < 10) : (digitC d).toNat - 48 = d := by
  interval_cases d <;> decide

theorem isDigit_ne_dash {c : Char} (h : c.isDigit = true) : ¬ c = '-' := by
  intro hc
  rw [hc] at h
  simp at h

theorem natCharsAux_digits : ∀ fuel n, n < fuel →
    ∀ c ∈ natCharsAux fuel n, c.isDigit = true := by
  intro fuel
  induction fuel with
  | zero => intro n h; omega
  | succ m ih =>
    intro n h c hc
    by_cases hn : n < 10
    · simp only [natCharsAux, if_pos hn, List.mem_singleton] at hc
      rw [hc]
      exact digitC_isDigit hn
    · simp only [natCharsAux, if_neg hn, List.mem_append, List.mem_singleton] at hc
      rcases hc with hc | hc
      · exact ih (n / 10) (by omega) c hc
      · rw [hc]
        exact digitC_isDigit (by omega)

theorem natCharsAux_ne_nil : ∀ fuel n, n < fuel → natCharsAux fuel n ≠ [] := by
  intro fuel
  induction fuel with
  | zero => intro n h; omega
  | succ m ih =>
    intro n h
    by_cases hn : n < 10
    · simp [natCharsAux, if_pos hn]
    · simp only [natCharsAux, if_neg hn]
      exact fun hx => by simpa using List.append_eq_nil.1 hx |>.2

theorem natCharsAux_foldl : ∀ fuel n acc, n < fuel →
    (natCharsAux fuel n).foldl (fun a c => a * 10 + (c.toNat - 48)) acc =
      acc * 10 ^ (natCharsAux fuel n).length + n := by
  intro fuel
  induction fuel with
  | zero => intro n acc h; omega
  | succ m ih =>
    intro n acc h
    by_cases hn : n < 10
    · simp only [natCharsAux, if_pos hn, List.foldl_cons, List.foldl_nil,
        List.length_singleton, pow_one, digitC_toNat hn]
    · simp only [natCharsAux, if_neg hn, List.foldl_append, List.foldl_cons, List.foldl_nil,
        List.length_append, List.length_singleton]
      rw [ih (n / 10) acc (by omega), digitC_toNat (by omega : n % 10 < 10)]
      rw [pow_succ]
      have : acc * (10 ^ (natCharsAux m (n / 10)).length * 10) =
          acc * 10 ^ (natCharsAux m (n / 10)).length * 10 := by ring
      rw [this]
      omega

theorem pDigits_append : ∀ ds : List Char, ∀ acc : Nat, ∀ rest : List Char,
    (∀ c ∈ ds, c.isDigit = true) → headND rest →
    pDigits acc (ds ++ rest) =
      (ds.foldl (fun a c => a * 10 + (c.toNat - 48)) acc, rest) := by
  intro ds
  induction ds with
  | nil =>
    intro acc rest _ hnd
    cases rest with
    | nil => rfl
    | cons c t =>
      simp only [headND] at hnd
      simp [pDigits, hnd]
  | cons c ds2 ih =>
    intro acc rest hds hnd
    have hc : c.isDigit = true := hds c (by simp)
    simp only [List.cons_append, pDigits, hc, if_true, List.foldl_cons]
    exact ih _ rest (fun x hx => hds x (List.mem_cons_of_mem _ hx)) hnd

theorem headND_of_headOkP {cs : List Char} (h : headOkP cs) : headND cs := by
  cases cs with
  | nil => trivial
  | cons c t =>
    simp only [headOkP] at h
    simp only [headND]
    rcases h with h | h <;> rw [h] <;> decide

theorem pNum_intChars (n : Int) (rest : List Char) (h : headND rest) :
    pNum (intChars n ++ rest) = some (n, rest) := by
  by_cases hn : n < 0
  · simp only [intChars, if_pos hn]
    have hm : (-n).toNat < (-n).toNat + 1 := by omega
    cases hnc : natChars (-n).toNat with
    | nil => exact absurd hnc (natCharsAux_ne_nil _ _ hm)
    | cons c0 ds =>
      have hc0 : c0.isDigit = true := by
        have := natCharsAux_digits _ _ hm c0 (by rw [← natChars, hnc]; simp)
        exact this
      simp only [List.cons_append, pNum, if_pos rfl]
      rw [if_pos hc0]
      have hfold := natCharsAux_foldl ((-n).toNat + 1) (-n).toNat 0 hm
      rw [natChars] at hnc
      rw [hnc, List.foldl_cons] at hfold
      simp only [pow_pos, Nat.zero_mul, Nat.zero_add] at hfold
      have hpd := pDigits_append ds (c0.toNat - 48) rest
        (fun x hx => natCharsAux_digits _ _ hm x (by rw [hnc]; exact List.mem_cons_of_mem _ hx))
        h
      rw [hpd]
      simp only [if_true]
      rw [hfold]
      have h3 : -(((-n).toNat : Nat) : Int) = n := by omega
      rw [h3]
  · simp only [intChars, if_neg hn]
    have hm : n.toNat < n.toNat + 1 := by omega
    cases hnc : natChars n.toNat with
    | nil => exact absurd hnc (natCharsAux_ne_nil _ _ hm)
    | cons c0 ds =>
      have hc0 : c0.isDigit = true := by
        have := natCharsAux_digits _ _ hm c0 (by rw [← natChars, hnc]; simp)
        exact this
      simp only [List.cons_append, pNum]
      rw [if_neg (isDigit_ne_dash hc0), if_pos hc0]
      have hfold := natCharsAux_foldl (n.toNat + 1) n.toNat 0 hm
      rw [natChars] at hnc
      rw [hnc, List.foldl_cons] at hfold
      simp only [Nat.zero_mul, Nat.zero_add] at hfold
      have hpd := pDigits_append ds (c0.toNat - 48) rest
        (fun x hx => natCharsAux_digits _ _ hm x (by rw [hnc]; exact List.mem_cons_of_mem _ hx))
        h
      rw [hpd]
      rw [hfold]
      have h3 : ((n.toNat : Nat) : Int) = n := by omega
      rw [h3]

/-! ## Round-trip machinery: strings and serializer shapes -/

theorem hexVal_hexC {x : Nat} (h : x < 16) : hexVal (hexC x) = some x := by
  interval_cases x <;> decide

theorem escChar_length_pos (c : Char) : 1 ≤ (escChar c).length := by
  simp only [escChar]
  split_ifs <;> simp

theorem escList_length_ge : ∀ cs : List Char, cs.length ≤ (escList cs).length := by
  intro cs
  induction cs with
  | nil => simp [escList]
  | cons c t ih =>
    simp only [escList, List.length_append, List.length_cons]
    have := escChar_length_pos c
    omega

theorem pStr_escList : ∀ cs : List Char, ∀ fuel rest, cs.length < fuel →
    pStr fuel (escList cs ++ '"' :: rest) = some (cs, rest) := by
  intro cs
  induction cs with
  | nil =>
    intro fuel rest hf
    cases fuel with
    | zero => omega
    | succ f => simp [escList, pStr]
  | cons c t ih =>
    intro fuel rest hf
    cases fuel with
    | zero => omega
    | succ f =>
      have hlt : t.length < f := by
        simp only [List.length_cons] at hf
        omega
      simp only [escList, List.append_assoc]
      by_cases h1 : c = '"'
      · subst h1
        simp [escChar, pStr, readEsc, unesc, ih _ _ hlt]
      by_cases h2 : c = '\\'
      · subst h2
        simp [escChar, pStr, readEsc, unesc, ih _ _ hlt]
      by_cases h3 : c = '\n'
      · subst h3
        simp [escChar, pStr, readEsc, unesc, ih _ _ hlt]
      by_cases h4 : c = '\t'
      · subst h4
        simp [escChar, pStr, readEsc, unesc, ih _ _ hlt]
      by_cases h5 : c = '\r'
      · subst h5
        simp [escChar, pStr, readEsc, unesc, ih _ _ hlt]
      by_cases h6 : c = Char.ofNat 8
      · subst h6
        simp [escChar, pStr, readEsc, unesc, ih _ _ hlt]
      by_cases h7 : c = Char.ofNat 12
      · subst h7
        simp [escChar, pStr, readEsc, unesc, ih _ _ hlt]
      by_cases h8 : c.toNat < 32
      · have hhi : c.toNat / 16 < 16 := by omega
        have hlo : c.toNat % 16 < 16 := by omega
        have hcode : ((0 * 16 + 0) * 16 + c.toNat / 16) * 16 + c.toNat % 16 = c.toNat := by
          omega
        have hcode2 : c.toNat / 16 * 16 + c.toNat % 16 = c.toNat := by omega
        simp only [escChar, if_neg h1, if_neg h2, if_neg h3, if_neg h4, if_neg h5, if_neg h6,
          if_neg h7, if_pos h8, List.cons_append, List.nil_append]
        simp [pStr, readEsc, readHex4, hexVal_hexC hhi, hexVal_hexC hlo,
          show hexVal '0' = some 0 from by decide, hcode, hcode2, Char.ofNat_toNat,
          ih _ _ hlt]
      · simp only [escChar, if_neg h1, if_neg h2, if_neg h3, if_neg h4, if_neg h5, if_neg h6,
          if_neg h7, if_neg h8, List.cons_append, List.nil_append]
        simp [pStr, h1, h2, ih _ _ hlt]

theorem String_mk_data (s : String) : String.mk s.data = s := rfl

theorem isDigit_ne {c a : Char} (h : c.isDigit = true) (ha : a.isDigit = false) : ¬ c = a := by
  intro hc
  rw [hc, ha] at h
  cases h

theorem isDigit_not_ws {c : Char} (h : c.isDigit = true) : isWsC c = false := by
  have h1 : ¬ c = ' ' := isDigit_ne h (by decide)
  have h2 : ¬ c = '\n' := isDigit_ne h (by decide)
  have h3 : ¬ c = '\t' := isDigit_ne h (by decide)
  have h4 : ¬ c = '\r' := isDigit_ne h (by decide)
  simp [isWsC, h1, h2, h3, h4]

theorem serV_arr_ok {d : Nat} {x : JVal} {xs : JArr}
    (hok : (serV d (.varr (.acons x xs))).2 = true) :
    (serV (d + 1) x).2 = true ∧ (serItems (d + 1) xs).2 = true := by
  by_cases h1 : (serV (d + 1) x).2 = true
  · by_cases h2 : (serItems (d + 1) xs).2 = true
    · exact ⟨h1, h2⟩
    · have h2f : (serItems (d + 1) xs).2 = false := by
        revert h2; cases (serItems (d + 1) xs).2 <;> simp
      rw [show (serV d (.varr (.acons x xs))).2 = false by
        simp only [serV, h1, if_true, h2f, Bool.false_eq_true, if_false]] at hok
      cases hok
  · have h1f : (serV (d + 1) x).2 = false := by
      revert h1; cases (serV (d + 1) x).2 <;> simp
    rw [show (serV d (.varr (.acons x xs))).2 = false by
      simp only [serV, h1f, Bool.false_eq_true, if_false]] at hok
    cases hok

theorem serV_obj_ok {d : Nat} {k : String} {v : JVal} {kvs : JObj}
    (hok : (serV d (.vobj (.ocons k v kvs))).2 = true) :
    (serV (d + 1) v).2 = true ∧ (serFields (d + 1) kvs).2 = true := by
  by_cases h1 : (serV (d + 1) v).2 = true
  · by_cases h2 : (serFields (d + 1) kvs).2 = true
    · exact ⟨h1, h2⟩
    · have h2f : (serFields (d + 1) kvs).2 = false := by
        revert h2; cases (serFields (d + 1) kvs).2 <;> simp
      rw [show (serV d (.vobj (.ocons k v kvs))).2 = false by
        simp only [serV, h1, if_true, h2f, Bool.false_eq_true, if_false]] at hok
      cases hok
  · have h1f : (serV (d + 1) v).2 = false := by
      revert h1; cases (serV (d + 1) v).2 <;> simp
    rw [show (serV d (.vobj (.ocons k v kvs))).2 = false by
      simp only [serV, h1f, Bool.false_eq_true, if_false]] at hok
    cases hok

theorem serItems_cons_ok {d : Nat} {x : JVal} {xs : JArr}
    (hok : (serItems d (.acons x xs)).2 = true) :
    (serV d x).2 = true ∧ (serItems d xs).2 = true := by
  by_cases h1 : (serV d x).2 = true
  · refine ⟨h1, ?_⟩
    rw [show (serItems d (.acons x xs)).2 = (serItems d xs).2 by
      simp only [serItems, h1, if_true]] at hok
    exact hok
  · have h1f : (serV d x).2 = false := by
      revert h1; cases (serV d x).2 <;> simp
    rw [show (serItems d (.acons x xs)).2 = false by
      simp only [serItems, h1f, Bool.false_eq_true, if_false]] at hok
    cases hok

theorem serFields_cons_ok {d : Nat} {k : String} {v : JVal} {kvs : JObj}
    (hok : (serFields d (.ocons k v kvs)).2 = true) :
    (serV d v).2 = true ∧ (serFields d kvs).2 = true := by
  by_cases h1 : (serV d v).2 = true
  · refine ⟨h1, ?_⟩
    rw [show (serFields d (.ocons k v kvs)).2 = (serFields d kvs).2 by
      simp only [serFields, h1, if_true]] at hok
    exact hok
  · have h1f : (serV d v).2 = false := by
      revert h1; cases (serV d v).2 <;> simp
    rw [show (serFields d (.ocons k v kvs)).2 = false by
      simp only [serFields, h1f, Bool.false_eq_true, if_false]] at hok
    cases hok

theorem serV_arr_chars {d : Nat} {x : JVal} {xs : JArr}
    (h1 : (serV (d + 1) x).2 = true) (h2 : (serItems (d + 1) xs).2 = true) :
    (serV d (.varr (.acons x xs))).1 =
      '[' :: '\n' :: (indChars (d + 1) ++ (serV (d + 1) x).1) ++ (serItems (d + 1) xs).1 ++
        '\n' :: (indChars d ++ [']']) := by
  simp only [serV, h1, h2, if_true]

theorem serV_obj_chars {d : Nat} {k : String} {v : JVal} {kvs : JObj}
    (h1 : (serV (d + 1) v).2 = true) (h2 : (serFields (d + 1) kvs).2 = true) :
    (serV d (.vobj (.ocons k v kvs))).1 =
      '\x7b' :: '\n' :: (indChars (d + 1) ++ encStr k ++ ':' :: ' ' :: (serV (d + 1) v).1) ++
        (serFields (d + 1) kvs).1 ++ '\n' :: (indChars d ++ ['\x7d']) := by
  simp only [serV, h1, h2, if_true]

theorem serItems_cons_chars {d : Nat} {x : JVal} {xs : JArr}
    (h1 : (serV d x).2 = true) :
    (serItems d (.acons x xs)).1 =
      ',' :: '\n' :: (indChars d ++ (serV d x).1) ++ (serItems d xs).1 := by
  simp only [serItems, h1, if_true]

theorem serFields_cons_chars {d : Nat} {k : String} {v : JVal} {kvs : JObj}
    (h1 : (serV d v).2 = true) :
    (serFields d (.ocons k v kvs)).1 =
      ',' :: '\n' :: (indChars d ++ encStr k ++ ':' :: ' ' :: (serV d v).1) ++
        (serFields d kvs).1 := by
  simp only [serFields, h1, if_true]

theorem serV_head (d : Nat) (v : JVal) (hok : (serV d v).2 = true) :
    ∃ c cs2, (serV d v).1 = c :: cs2 ∧ isWsC c = false ∧ ¬ c = ']' := by
  cases v with
  | vnull => exact ⟨'n', _, rfl, by decide, by decide⟩
  | vbool b =>
    cases b
    · exact ⟨'f', _, rfl, by decide, by decide⟩
    · exact ⟨'t', _, rfl, by decide, by decide⟩
  | vnum n =>
    by_cases hn : n < 0
    · refine ⟨'-', natChars (-n).toNat, ?_, by decide, by decide⟩
      simp [serV, intChars, hn]
    · cases hnc : natChars n.toNat with
      | nil => exact absurd hnc (natCharsAux_ne_nil (n.toNat + 1) n.toNat (by omega))
      | cons c0 ds =>
        have hc0 : c0.isDigit = true := by
          have hmem : c0 ∈ natCharsAux (n.toNat + 1) n.toNat := by
            rw [show natCharsAux (n.toNat + 1) n.toNat = natChars n.toNat from rfl, hnc]
            simp
          exact natCharsAux_digits (n.toNat + 1) n.toNat (by omega) c0 hmem
        refine ⟨c0, ds, ?_, isDigit_not_ws hc0, isDigit_ne hc0 (by decide)⟩
        simp only [serV, intChars, if_neg hn]
        exact hnc
  | vstr s => exact ⟨'"', _, rfl, by decide, by decide⟩
  | varr xs =>
    cases xs with
    | anil => exact ⟨'[', _, rfl, by decide, by decide⟩
    | acons x xs2 =>
      have hex : ∃ t, (serV d (.varr (.acons x xs2))).1 = '[' :: t := by
        simp only [serV]
        split_ifs <;> exact ⟨_, rfl⟩
      obtain ⟨t, ht⟩ := hex
      exact ⟨'[', t, ht, by decide, by decide⟩
  | vobj kvs =>
    cases kvs with
    | onil => exact ⟨'\x7b', _, rfl, by decide, by decide⟩
    | ocons k v kvs2 =>
      have hex : ∃ t, (serV d (.vobj (.ocons k v kvs2))).1 = '\x7b' :: t := by
        simp only [serV]
        split_ifs <;> exact ⟨_, rfl⟩
      obtain ⟨t, ht⟩ := hex
      exact ⟨'\x7b', t, ht, by decide, by decide⟩
  | bad r =>
    rw [show (serV d (.bad r)).2 = false from rfl] at hok
    cases hok

theorem serItems_headOk (d : Nat) (xs : JArr) (X : List Char) :
    headOkP ((serItems d xs).1 ++ ('\n' :: X)) := by
  cases xs with
  | anil => simp [serItems, headOkP]
  | acons x xs2 =>
    have hex : ∃ t, (serItems d (.acons x xs2)).1 = ',' :: t := by
      simp only [serItems]
      split_ifs <;> exact ⟨_, rfl⟩
    obtain ⟨t, ht⟩ := hex
    rw [ht]
    simp [headOkP]

theorem serFields_headOk (d : Nat) (kvs : JObj) (X : List Char) :
    headOkP ((serFields d kvs).1 ++ ('\n' :: X)) := by
  cases kvs with
  | onil => simp [serFields, headOkP]
  | ocons k v kvs2 =>
    have hex : ∃ t, (serFields d (.ocons k v kvs2)).1 = ',' :: t := by
      simp only [serFields]
      split_ifs <;> exact ⟨_, rfl⟩
    obtain ⟨t, ht⟩ := hex
    rw [ht]
    simp [headOkP]

theorem pVal_strip_nl_indent (f d : Nat) (cs : List Char) :
    pVal (f + 1) ('\n' :: (indChars d ++ cs)) = pVal (f + 1) cs := by
  rw [pVal_succ_skipWs, skipWs_nl, skipWs_indent, ← pVal_succ_skipWs]

theorem pVal_cons_ws {c : Char} (f : Nat) (cs : List Char) (hc : isWsC c = true) :
    pVal (f + 1) (c :: cs) = pVal (f + 1) cs := by
  rw [pVal_succ_skipWs, skipWs_cons_of_ws hc, ← pVal_succ_skipWs]

/-! ## Round-trip machinery: the parser inverts the serializer -/

theorem pVal_str (f : Nat) (s : String) (rest : List Char) (hs : s.data.length < f) :
    pVal (f + 1) (encStr s ++ rest) = some (.vstr s, rest) := by
  simp only [encStr, List.cons_append, List.append_assoc, List.nil_append]
  simp only [pVal]
  rw [skipWs_cons_of_not (by decide : isWsC '"' = false)]
  simp only [show ('"' : Char) = 'n' ↔ False from by decide,
    show ('"' : Char) = 't' ↔ False from by decide,
    show ('"' : Char) = 'f' ↔ False from by decide, if_false, if_true, eq_self_iff_true]
  rw [pStr_escList s.data f rest hs]
  simp [String_mk_data]

theorem pVal_num (f : Nat) (n : Int) (rest : List Char) (hr : headOkP rest) :
    pVal (f + 1) (intChars n ++ rest) = some (.vnum n, rest) := by
  have hpn := pNum_intChars n rest (headND_of_headOkP hr)
  by_cases hn : n < 0
  · rw [show intChars n = '-' :: natChars (-n).toNat from by simp [intChars, hn]] at hpn ⊢
    simp only [List.cons_append] at hpn ⊢
    simp only [pVal]
    rw [skipWs_cons_of_not (by decide : isWsC '-' = false)]
    simp only [show ('-' : Char) = 'n' ↔ False from by decide,
      show ('-' : Char) = 't' ↔ False from by decide,
      show ('-' : Char) = 'f' ↔ False from by decide,
      show ('-' : Char) = '"' ↔ False from by decide,
      show ('-' : Char) = '[' ↔ False from by decide,
      show ('-' : Char) = '\x7b' ↔ False from by decide, if_false]
    rw [hpn]
    rfl
  · cases hnc : natChars n.toNat with
    | nil => exact absurd hnc (natCharsAux_ne_nil (n.toNat + 1) n.toNat (by omega))
    | cons c0 ds =>
      have hc0 : c0.isDigit = true := by
        have hmem : c0 ∈ natCharsAux (n.toNat + 1) n.toNat := by
          rw [show natCharsAux (n.toNat + 1) n.toNat = natChars n.toNat from rfl, hnc]
          simp
        exact natCharsAux_digits (n.toNat + 1) n.toNat (by omega) c0 hmem
      rw [show intChars n = c0 :: ds from by rw [intChars, if_neg hn]; exact hnc] at hpn ⊢
      simp only [List.cons_append] at hpn ⊢
      simp only [pVal]
      rw [skipWs_cons_of_not (isDigit_not_ws hc0)]
      dsimp only
      simp only [if_neg (isDigit_ne hc0 (by decide : ('n').isDigit = false)),
        if_neg (isDigit_ne hc0 (by decide : ('t').isDigit = false)),
        if_neg (isDigit_ne hc0 (by decide : ('f').isDigit = false)),
        if_neg (isDigit_ne hc0 (by decide : ('"').isDigit = false)),
        if_neg (isDigit_ne hc0 (by decide : ('[').isDigit = false)),
        if_neg (isDigit_ne hc0 (by decide : ('\x7b').isDigit = false))]
      rw [hpn]
      rfl

mutual
theorem pVal_serV (v : JVal) : ∀ (d f : Nat) (rest : List Char),
    (serV d v).2 = true → (serV d v).1.length < f → headOkP rest →
    pVal f ((serV d v).1 ++ rest) = some (v, rest) := by
  intro d f rest hok hf hr
  cases v with
  | vnull =>
    cases f with
    | zero => exact absurd hf (Nat.not_lt_zero _)
    | succ f2 => exact rfl
  | vbool b =>
    cases f with
    | zero => exact absurd hf (Nat.not_lt_zero _)
    | succ f2 =>
      cases b
      · exact rfl
      · exact rfl
  | vnum n =>
    cases f with
    | zero => exact absurd hf (Nat.not_lt_zero _)
    | succ f2 => exact pVal_num f2 n rest hr
  | vstr s =>
    cases f with
    | zero => exact absurd hf (Nat.not_lt_zero _)
    | succ f2 =>
      have h1 := escList_length_ge s.data
      have h2 : (serV d (.vstr s)).1.length = (escList s.data).length + 2 := by
        simp [serV, encStr]
      exact pVal_str f2 s rest (by omega)
  | varr xs =>
    cases xs with
    | anil =>
      cases f with
      | zero => exact absurd hf (Nat.not_lt_zero _)
      | succ f2 => exact rfl
    | acons x xs2 =>
      obtain ⟨hx, hxs⟩ := serV_arr_ok hok
      cases f with
      | zero => exact absurd hf (Nat.not_lt_zero _)
      | succ f2 =>
        rw [serV_arr_chars hx hxs] at hf ⊢
        simp only [List.cons_append, List.append_assoc, List.nil_append] at hf ⊢
        simp only [List.length_cons, List.length_append, indChars,
          List.length_replicate] at hf
        simp only [pVal]
        rw [skipWs_cons_of_not (by decide : isWsC '[' = false)]
        simp only [show ('[' : Char) = 'n' ↔ False from by decide,
          show ('[' : Char) = 't' ↔ False from by decide,
          show ('[' : Char) = 'f' ↔ False from by decide,
          show ('[' : Char) = '"' ↔ False from by decide, if_false, if_true,
          eq_self_iff_true]
        rw [skipWs_nl, skipWs_indent]
        obtain ⟨c0, cs0, hc0, hcw, hcb⟩ := serV_head (d + 1) x hx
        rw [hc0, List.cons_append, skipWs_cons_of_not hcw]
        simp only [if_neg hcb]
        rw [← List.cons_append, ← hc0]
        rw [pVal_serV x (d + 1) f2 _ hx (by omega)
          (serItems_headOk (d + 1) xs2 (indChars d ++ ']' :: rest))]
        dsimp only
        rw [pItems_serItems xs2 (d + 1) d f2 rest hxs (by omega) hr]
        rfl
  | vobj kvs =>
    cases kvs with
    | onil =>
      cases f with
      | zero => exact absurd hf (Nat.not_lt_zero _)
      | succ f2 => exact rfl
    | ocons k v2 kvs2 =>
      obtain ⟨hv, hkvs⟩ := serV_obj_ok hok
      cases f with
      | zero => exact absurd hf (Nat.not_lt_zero _)
      | succ f2 =>
        rw [serV_obj_chars hv hkvs] at hf ⊢
        simp only [encStr, List.cons_append, List.append_assoc, List.nil_append] at hf ⊢
        simp only [List.length_cons, List.length_append, indChars,
          List.length_replicate] at hf
        have hkl := escList_length_ge k.data
        simp only [pVal]
        rw [skipWs_cons_of_not (by decide : isWsC '\x7b' = false)]
        simp only [show ('\x7b' : Char) = 'n' ↔ False from by decide,
          show ('\x7b' : Char) = 't' ↔ False from by decide,
          show ('\x7b' : Char) = 'f' ↔ False from by decide,
          show ('\x7b' : Char) = '"' ↔ False from by decide,
          show ('\x7b' : Char) = '[' ↔ False from by decide, if_false, if_true,
          eq_self_iff_true]
        rw [skipWs_nl, skipWs_indent, skipWs_cons_of_not (by decide : isWsC '"' = false)]
        simp only [show ('"' : Char) = '\x7d' ↔ False from by decide, if_false, if_true,
          eq_self_iff_true]
        rw [pStr_escList k.data f2 _ (by omega)]
        dsimp only
        rw [skipWs_cons_of_not (by decide : isWsC ':' = false)]
        dsimp only
        simp only [if_true, eq_self_iff_true]
        cases f2 with
        | zero => omega
        | succ f3 =>
          rw [pVal_cons_ws f3 _ (by decide : isWsC ' ' = true)]
          rw [pVal_serV v2 (d + 1) (f3 + 1) _ hv (by omega)
            (serFields_headOk (d + 1) kvs2 (indChars d ++ '\x7d' :: rest))]
          dsimp only
          rw [pFields_serFields kvs2 (d + 1) d (f3 + 1) rest hkvs (by omega) hr]
          simp [String_mk_data]
  | bad rb =>
    rw [show (serV d (.bad rb)).2 = false from rfl] at hok
    cases hok
theorem pItems_serItems (xs : JArr) : ∀ (d e f : Nat) (rest : List Char),
    (serItems d xs).2 = true → (serItems d xs).1.length + 1 ≤ f → headOkP rest →
    pItems f ((serItems d xs).1 ++ ('\n' :: (indChars e ++ ']' :: rest))) =
      some (xs, rest) := by
  intro d e f rest hok hf hr
  cases xs with
  | anil =>
    cases f with
    | zero => omega
    | succ f2 =>
      simp only [serItems, List.nil_append]
      simp only [pItems]
      rw [skipWs_nl, skipWs_indent, skipWs_cons_of_not (by decide : isWsC ']' = false)]
      rfl
  | acons x xs2 =>
    obtain ⟨hx, hxs⟩ := serItems_cons_ok hok
    cases f with
    | zero => omega
    | succ f2 =>
      rw [serItems_cons_chars hx] at hf ⊢
      simp only [List.cons_append, List.append_assoc, List.nil_append] at hf ⊢
      simp only [List.length_cons, List.length_append, indChars,
        List.length_replicate] at hf
      simp only [pItems]
      rw [skipWs_cons_of_not (by decide : isWsC ',' = false)]
      simp only [show (',' : Char) = ']' ↔ False from by decide, if_false, if_true,
        eq_self_iff_true]
      cases f2 with
      | zero => omega
      | succ f3 =>
        rw [pVal_strip_nl_indent f3 d]
        rw [pVal_serV x d (f3 + 1) _ hx (by omega)
          (serItems_headOk d xs2 (indChars e ++ ']' :: rest))]
        dsimp only
        rw [pItems_serItems xs2 d e (f3 + 1) rest hxs (by omega) hr]
        rfl
theorem pFields_serFields (kvs : JObj) : ∀ (d e f : Nat) (rest : List Char),
    (serFields d kvs).2 = true → (serFields d kvs).1.length + 1 ≤ f → headOkP rest →
    pFields f ((serFields d kvs).1 ++ ('\n' :: (indChars e ++ '\x7d' :: rest))) =
      some (kvs, rest) := by
  intro d e f rest hok hf hr
  cases kvs with
  | onil =>
    cases f with
    | zero => omega
    | succ f2 =>
      simp only [serFields, List.nil_append]
      simp only [pFields]
      rw [skipWs_nl, skipWs_indent, skipWs_cons_of_not (by decide : isWsC '\x7d' = false)]
      rfl
  | ocons k v kvs2 =>
    obtain ⟨hv, hkvs⟩ := serFields_cons_ok hok
    cases f with
    | zero => omega
    | succ f2 =>
      rw [serFields_cons_chars hv] at hf ⊢
      simp only [encStr, List.cons_append, List.append_assoc, List.nil_append] at hf ⊢
      simp only [List.length_cons, List.length_append, indChars,
        List.length_replicate] at hf
      have hkl := escList_length_ge k.data
      simp only [pFields]
      rw [skipWs_cons_of_not (by decide : isWsC ',' = false)]
      simp only [show (',' : Char) = '\x7d' ↔ False from by decide, if_false, if_true,
        eq_self_iff_true]
      rw [skipWs_nl, skipWs_indent, skipWs_cons_of_not (by decide : isWsC '"' = false)]
      simp only [if_true, eq_self_iff_true]
      rw [pStr_escList k.data f2 _ (by omega)]
      dsimp only
      rw [skipWs_cons_of_not (by decide : isWsC ':' = false)]
      dsimp only
      simp only [if_true, eq_self_iff_true]
      cases f2 with
      | zero => omega
      | succ f3 =>
        rw [pVal_cons_ws f3 _ (by decide : isWsC ' ' = true)]
        rw [pVal_serV v d (f3 + 1) _ hv (by omega)
          (serFields_headOk d kvs2 (indChars e ++ '\x7d' :: rest))]
        dsimp only
        rw [pFields_serFields kvs2 d e (f3 + 1) rest hkvs (by omega) hr]
        simp [String_mk_data]
end

theorem parseJson_serV (v : JVal) (hok : (serV 0 v).2 = true) :
    parseJson (String.mk (serV 0 v).1) = some v := by
  simp only [parseJson]
  have h := pVal_serV v 0 ((serV 0 v).1.length + 1) [] hok (by omega) trivial
  rw [List.append_nil] at h
  rw [h]
  rfl

/-! ## C7: `save_json` creates directories, writes UTF-8 JSON, round-trips -/

/-- C7: for a serializable value and a path whose parent directory does
not exist, `save_json` succeeds, the parent directory and its whole
ancestor chain exist afterwards, the file holds exactly the serialized
text, re-parsing that text yields the original value, every character
outside the escaped set (quote, backslash, control characters) is
written verbatim — non-ASCII included — and the spec example object
serializes to 2-space-indented UTF-8 text with a literal ``café``. -/
theorem c7_save_roundtrip (v : JVal) (path : String) (fs : FS)
    (hser : (serV 0 v).2 = true)
    (hd : dirname path ≠ "")
    (hmiss : dirname path ∉ fs.dirs) :
    (save_json fs v path none).2 = SaveOutcome.ok ∧
    dirname path ∈ (save_json fs v path none).1.dirs ∧
    (∀ a ∈ dirChain ((dirname path).length + 1) (dirname path),
      a ∈ (save_json fs v path none).1.dirs) ∧
    (path, String.mk (serV 0 v).1) ∈ (save_json fs v path none).1.files ∧
    parseJson (String.mk (serV 0 v).1) = some v ∧
    (∀ c : Char, 32 ≤ c.toNat → ¬ c = '"' → ¬ c = '\\' → escChar c = [c]) ∧
    String.mk (serV 0 (JVal.vobj (.ocons "café" (JVal.vbool true) .onil))).1 =
      "\x7b\n  \"café\": true\n\x7d" := by
  have hcond : dirname path ≠ "" ∧ dirname path ∉ fs.dirs := ⟨hd, hmiss⟩
  refine ⟨?_, ?_, ?_, ?_, parseJson_serV v hser, ?_, by decide⟩
  · simp only [save_json, if_pos hcond, hser, if_true]
  · simp only [save_json, if_pos hcond, makedirsModel, hser, if_true, List.mem_append]
    left
    cases hfuel : (dirname path).length + 1 with
    | zero => omega
    | succ m =>
      simp only [dirChain, if_neg hd]
      simp
  · intro a ha
    simp only [save_json, if_pos hcond, makedirsModel, hser, if_true, List.mem_append]
    exact Or.inl ha
  · simp only [save_json, if_pos hcond, hser, if_true]
    exact self_mem_dictInsert _ _ _
  · intro c h32 hq hb
    have h3 : ¬ c = '\n' := fun hc => absurd h32 (by rw [hc]; decide)
    have h4 : ¬ c = '\t' := fun hc => absurd h32 (by rw [hc]; decide)
    have h5 : ¬ c = '\r' := fun hc => absurd h32 (by rw [hc]; decide)
    have h6 : ¬ c = Char.ofNat 8 := fun hc => absurd h32 (by rw [hc]; decide)
    have h7 : ¬ c = Char.ofNat 12 := fun hc => absurd h32 (by rw [hc]; decide)
    simp [escChar, hq, hb, h3, h4, h5, h6, h7, show ¬ c.toNat < 32 from by omega]

/-- C7 (witness): the spec example value written to a path under a
nested directory that does not exist in the empty filesystem. -/
theorem c7_save_roundtrip_witness :
    (save_json ⟨[], []⟩ (JVal.vobj (.ocons "café" (JVal.vbool true) .onil))
        "Output/nested/cafe-eol.json" none).2 = SaveOutcome.ok ∧
    dirname "Output/nested/cafe-eol.json" ∈
      (save_json ⟨[], []⟩ (JVal.vobj (.ocons "café" (JVal.vbool true) .onil))
        "Output/nested/cafe-eol.json" none).1.dirs ∧
    parseJson (String.mk (serV 0 (JVal.vobj (.ocons "café" (JVal.vbool true) .onil))).1) =
      some (JVal.vobj (.ocons "café" (JVal.vbool true) .onil)) :=
  have h := c7_save_roundtrip (JVal.vobj (.ocons "café" (JVal.vbool true) .onil))
    "Output/nested/cafe-eol.json" ⟨[], []⟩ (by decide) (by decide) (by decide)
  ⟨h.1, h.2.1, h.2.2.2.2.1⟩

/-! ## C10: serialization failures escape as a raw `TypeError` -/

/-- C10: with no `OSError`, a non-serializable value makes `save_json`
surface a raw `TypeError` — never `FileSaveError`, which is reserved
for `OSError` — and the text streamed before the failure is left in the
file at the destination path; the concrete conjunct shows the partial
file produced by an object whose second value is a Python set. -/
theorem c10_typeerror (fs : FS) (path : String) (v : JVal)
    (hbad : (serV 0 v).2 = false) :
    (save_json fs v path none).2 =
      SaveOutcome.typeError "Object is not JSON serializable" ∧
    (∀ m, ¬ (save_json fs v path none).2 = SaveOutcome.fileSaveError m) ∧
    (path, String.mk (serV 0 v).1) ∈ (save_json fs v path none).1.files ∧
    (save_json ⟨[], []⟩ (JVal.vobj (.ocons "a" (JVal.vnum 1)
        (.ocons "b" (JVal.bad "set()") .onil))) "out.json" none).1.files =
      [("out.json", "\x7b\n  \"a\": 1,\n  \"b\": ")] ∧
    (∀ e p2 d2, ∀ fs2 : FS, (save_json fs2 d2 p2 (some e)).2 =
      SaveOutcome.fileSaveError
        ("Failed to write file " ++ squote ++ p2 ++ squote ++ ": " ++ e)) := by
  have houtcome : (save_json fs v path none).2 =
      SaveOutcome.typeError "Object is not JSON serializable" := by
    simp only [save_json, hbad, Bool.false_eq_true, if_false]
  have hfiles : (path, String.mk (serV 0 v).1) ∈ (save_json fs v path none).1.files := by
    simp only [save_json, hbad, Bool.false_eq_true, if_false]
    exact self_mem_dictInsert _ _ _
  refine ⟨houtcome, fun m hm => ?_, hfiles, by decide, fun e p2 d2 fs2 => ?_⟩
  · rw [houtcome] at hm
    cases hm
  · simp only [save_json]

/-- C10 (witness): the set-containing object at a concrete path. -/
theorem c10_typeerror_witness :
    (save_json ⟨[], []⟩ (JVal.vobj (.ocons "a" (JVal.vnum 1)
        (.ocons "b" (JVal.bad "set()") .onil))) "out.json" none).2 =
      SaveOutcome.typeError "Object is not JSON serializable" :=
  (c10_typeerror ⟨[], []⟩ "out.json"
    (JVal.vobj (.ocons "a" (JVal.vnum 1) (.ocons "b" (JVal.bad "set()") .onil)))
    (by decide)).1
